import Mathlib

/-!
Shallow embedding of `core/server/src/api_server/event_notify.rs` (the event
notifier of the zksync server): the waiter registry, the subscription
resolver (`handle_subscription`), the block dispatcher (`handle_new_block`)
and the event-loop body (`run`), together with theorems settling the
specification's claims about them.

Modelling conventions:
* a `oneshot::Sender` is represented by a numeric waiter id; `notify.send(v)`
  is recorded as a `Notification` event naming that id and the sent value;
* a `BTreeMap` is represented by an association list (first binding wins);
  reachable states keep the keys duplicate-free, matching the real map;
* storage access is pure: a `ConnectionPool` value fixes what every query
  during the processing of one input returns; `none` at the outer layer of a
  query models a `Result::Err` discarded by `.ok()`;
* machine integers (`u64` serial ids, `u32` block numbers) are `Nat`/`Int`
  with explicit `% 2^32` exactly where the source casts with `as u32`.
-/

namespace EventNotify

/-- Bytes of a transaction hash, modelling `[u8; 32]`. -/
abbrev TxHash := List Nat

/-- Identifier standing for a `oneshot::Sender` completion handle. -/
abbrev WaiterId := Nat

/-- Embeds `models::ActionType`. -/
inductive ActionType where
  | COMMIT
  | VERIFY
deriving DecidableEq, Repr

/-- Embeds `models::Action`; the `Verify` proof payload is never read here. -/
inductive Action where
  | Commit
  | Verify
deriving DecidableEq, Repr

/-- Embeds `Action::get_type`. -/
def Action.get_type : Action → ActionType
  | .Commit => .COMMIT
  | .Verify => .VERIFY

/-- Embeds `storage::TxReceiptResponse`. -/
structure TxReceiptResponse where
  tx_hash : String
  block_number : Int
  success : Bool
  fail_reason : Option String
  verified : Bool
  prover_run : Option Unit
deriving DecidableEq, Repr

/-- Embeds `super::PriorityOpStatus` as used here: an executed flag and an
optional block number. -/
structure PriorityOpStatus where
  executed : Bool
  block : Option Int
deriving DecidableEq, Repr

/-- An executed transaction inside a block: the fields `handle_new_block`
reads. `hash` stands for the value of `tx.tx.hash()`. -/
structure ExecutedTx where
  hash : TxHash
  success : Bool
  fail_reason : Option String
deriving DecidableEq, Repr

/-- An executed priority operation inside a block: only
`prior_op.priority_op.serial_id` is read. -/
structure ExecutedPriorityOp where
  serial_id : Nat
deriving DecidableEq, Repr

/-- Embeds `models::node::block::ExecutedOperations`. -/
inductive ExecutedOperations where
  | Tx (tx : ExecutedTx)
  | PriorityOp (prior_op : ExecutedPriorityOp)
deriving DecidableEq, Repr

/-- The block carried by an `Operation`: its number (a `u32`) and its
transaction list. -/
structure Block where
  block_number : Nat
  block_transactions : List ExecutedOperations
deriving DecidableEq, Repr

/-- Embeds `models::Operation` restricted to the fields read here. -/
structure Operation where
  action : Action
  block : Block
deriving DecidableEq, Repr

/-- Row returned by `get_executed_priority_op`; only `block_number` is read. -/
structure ExecutedPriorityOpRecord where
  block_number : Int
deriving DecidableEq, Repr

/-- Row returned by `load_stored_op_with_block_number`; only `confirmed` is
read. -/
structure StoredOperationRecord where
  confirmed : Bool
deriving DecidableEq, Repr

/-- One storage connection. For `tx_receipt` and `get_executed_priority_op`
the outer `Option` is the `Result` discarded by `.ok()` (`none` = query
error) and the inner one is "row present or not";
`load_stored_op_with_block_number` returns a plain `Option` in the source. -/
structure StorageProcessor where
  tx_receipt : TxHash → Option (Option TxReceiptResponse)
  get_executed_priority_op : Nat → Option (Option ExecutedPriorityOpRecord)
  load_stored_op_with_block_number : Nat → ActionType → Option StoredOperationRecord

/-- Embeds `storage::ConnectionPool`: `access_storage` is `none` when
acquiring a connection fails (a `Result::Err` discarded by `.ok()`). -/
structure ConnectionPool where
  access_storage : Option StorageProcessor

/-- Embeds `EventSubscribe`. `commit = true` requests the `Committed` level,
`commit = false` the `Verified` level ("commit of verify" in the source). -/
inductive EventSubscribe where
  | Transaction (hash : TxHash) (commit : Bool) (notify : WaiterId)
  | PriorityOp (serial_id : Nat) (commit : Bool) (notify : WaiterId)
deriving Repr

/-- Embeds `BlockNotifierInput`. -/
inductive BlockNotifierInput where
  | NewOperationCommited (op : Operation)
  | EventSubscription (sub : EventSubscribe)
deriving Repr

/-- A delivery event: the effect of `notify.send(...)` on a waiter. -/
inductive Notification where
  | tx (notify : WaiterId) (receipt : TxReceiptResponse)
  | priorOp (notify : WaiterId) (status : PriorityOpStatus)
deriving DecidableEq, Repr

/-- Association-list reading of `BTreeMap` lookup: first binding wins. -/
def alistLookup [DecidableEq κ] (k : κ) : List (κ × α) → Option α
  | [] => none
  | (k', v) :: rest => if k = k' then some v else alistLookup k rest

/-- The state effect of `BTreeMap::remove`: delete the binding of `k`. -/
def alistErase [DecidableEq κ] (k : κ) : List (κ × α) → List (κ × α)
  | [] => []
  | (k', v) :: rest => if k = k' then rest else (k', v) :: alistErase k rest

/-- Embeds `BTreeMap::insert`: replace the binding of `k`, or add one. -/
def alistInsert [DecidableEq κ] (k : κ) (v : α) : List (κ × α) → List (κ × α)
  | [] => [(k, v)]
  | (k', v') :: rest =>
      if k = k' then (k, v) :: rest else (k', v') :: alistInsert k v rest

/-- The four waiter maps of `OperationNotifier` (`db_pool` is passed to the
handlers separately, as the storage contents each input observes). -/
structure OperationNotifier where
  tx_commit_subs : List (TxHash × List WaiterId)
  prior_op_commit_subs : List (Nat × List WaiterId)
  tx_verify_subs : List (TxHash × List WaiterId)
  prior_op_verify_subs : List (Nat × List WaiterId)
deriving DecidableEq, Repr

/-- The state built by `start_sub_notifier`: four empty maps. -/
def initialNotifier : OperationNotifier := ⟨[], [], [], []⟩

/-- Embeds `MAX_LISTENERS_PER_ENTITY`. -/
def MAX_LISTENERS_PER_ENTITY : Nat := 4096

/-- Modulus of a `u32`, used where the source casts with `as u32`. -/
def U32_MOD : Nat := 4294967296

/-- Embeds lines 77–95 of `handle_subscription`: register a transaction
waiter for the requested level, dropping it when the bucket is full. -/
def registerTx (commit : Bool) (hash : TxHash) (notify : WaiterId)
    (st : OperationNotifier) : OperationNotifier × List Notification :=
  if commit then
    let listeners := (alistLookup hash st.tx_commit_subs).getD []
    let rest := alistErase hash st.tx_commit_subs
    let listeners := if listeners.length < MAX_LISTENERS_PER_ENTITY
      then listeners ++ [notify] else listeners
    ({ st with tx_commit_subs := alistInsert hash listeners rest }, [])
  else
    let listeners := (alistLookup hash st.tx_verify_subs).getD []
    let rest := alistErase hash st.tx_verify_subs
    let listeners := if listeners.length < MAX_LISTENERS_PER_ENTITY
      then listeners ++ [notify] else listeners
    ({ st with tx_verify_subs := alistInsert hash listeners rest }, [])

/-- Embeds lines 132–150 of `handle_subscription`: register a priority-op
waiter for the requested level, dropping it when the bucket is full. -/
def registerPriorityOp (commit : Bool) (serial_id : Nat) (notify : WaiterId)
    (st : OperationNotifier) : OperationNotifier × List Notification :=
  if commit then
    let listeners := (alistLookup serial_id st.prior_op_commit_subs).getD []
    let rest := alistErase serial_id st.prior_op_commit_subs
    let listeners := if listeners.length < MAX_LISTENERS_PER_ENTITY
      then listeners ++ [notify] else listeners
    ({ st with prior_op_commit_subs := alistInsert serial_id listeners rest }, [])
  else
    let listeners := (alistLookup serial_id st.prior_op_verify_subs).getD []
    let rest := alistErase serial_id st.prior_op_verify_subs
    let listeners := if listeners.length < MAX_LISTENERS_PER_ENTITY
      then listeners ++ [notify] else listeners
    ({ st with prior_op_verify_subs := alistInsert serial_id listeners rest }, [])

/-- Embeds the query chain of lines 60–64:
`access_storage().ok().and_then(|s| s.tx_receipt(hash).ok().unwrap_or(None))`. -/
def txReceiptQuery (db_pool : ConnectionPool) (hash : TxHash) :
    Option TxReceiptResponse :=
  db_pool.access_storage.bind fun s => (s.tx_receipt hash).getD none

/-- Embeds the query chain of lines 102–106. Note the source truncates the
`u64` serial id with `serial_id as u32` before consulting the store. -/
def executedPriorityOpQuery (db_pool : ConnectionPool) (serial_id : Nat) :
    Option ExecutedPriorityOpRecord :=
  db_pool.access_storage.bind fun s =>
    (s.get_executed_priority_op (serial_id % U32_MOD)).getD none

/-- Embeds the query chain of lines 116–122, including the
`executed_op.block_number as u32` cast. -/
def blockVerifyQuery (db_pool : ConnectionPool) (block_number : Int) :
    Option StoredOperationRecord :=
  db_pool.access_storage.bind fun s =>
    s.load_stored_op_with_block_number
      (block_number % (U32_MOD : Int)).toNat ActionType.VERIFY

/-- Embeds `OperationNotifier::handle_subscription` (lines 52–153). -/
def handle_subscription (db_pool : ConnectionPool) (new_sub : EventSubscribe)
    (st : OperationNotifier) : OperationNotifier × List Notification :=
  match new_sub with
  | .Transaction hash commit notify =>
      match txReceiptQuery db_pool hash with
      | some receipt =>
          if commit then (st, [.tx notify receipt])
          else if receipt.verified then (st, [.tx notify receipt])
          else registerTx commit hash notify st
      | none => registerTx commit hash notify st
  | .PriorityOp serial_id commit notify =>
      match executedPriorityOpQuery db_pool serial_id with
      | some executed_op =>
          let prior_op_status : PriorityOpStatus :=
            { executed := true, block := some executed_op.block_number }
          if commit then (st, [.priorOp notify prior_op_status])
          else
            match blockVerifyQuery db_pool executed_op.block_number with
            | some block_verify =>
                if block_verify.confirmed then
                  (st, [.priorOp notify prior_op_status])
                else registerPriorityOp commit serial_id notify st
            | none => registerPriorityOp commit serial_id notify st
      | none => registerPriorityOp commit serial_id notify st

/-- One lowercase hexadecimal digit, as `hex::encode` produces. -/
def hexDigit (n : Nat) : Char :=
  if n < 10 then Char.ofNat (48 + n) else Char.ofNat (87 + n)

/-- Embeds `hex::encode` on a byte sequence: two lowercase hex digits per
byte, in byte order. -/
def hexEncode (bytes : List Nat) : String :=
  String.mk (bytes.foldr (fun b acc => hexDigit (b / 16 % 16) :: hexDigit (b % 16) :: acc) [])

/-- One iteration of the `for tx in op.block.block_transactions` loop of
`handle_new_block` (lines 160–203): drain the matching bucket and send the
outcome to every drained waiter. -/
def dispatchTx (commit : Bool) (op : Operation) (st : OperationNotifier) :
    ExecutedOperations → OperationNotifier × List Notification
  | .Tx tx =>
      let hash := tx.hash
      let subs := if commit then alistLookup hash st.tx_commit_subs
        else alistLookup hash st.tx_verify_subs
      let st' := if commit then
          { st with tx_commit_subs := alistErase hash st.tx_commit_subs }
        else { st with tx_verify_subs := alistErase hash st.tx_verify_subs }
      match subs with
      | some channels =>
          let receipt : TxReceiptResponse :=
            { tx_hash := hexEncode hash
              block_number := (op.block.block_number : Int)
              success := tx.success
              fail_reason := tx.fail_reason
              verified := op.action.get_type == ActionType.VERIFY
              prover_run := none }
          (st', channels.map fun ch => .tx ch receipt)
      | none => (st', [])
  | .PriorityOp prior_op =>
      let id := prior_op.serial_id
      let subs := if commit then alistLookup id st.prior_op_commit_subs
        else alistLookup id st.prior_op_verify_subs
      let st' := if commit then
          { st with prior_op_commit_subs := alistErase id st.prior_op_commit_subs }
        else
          { st with prior_op_verify_subs := alistErase id st.prior_op_verify_subs }
      match subs with
      | some channels =>
          let prior_op_status : PriorityOpStatus :=
            { executed := true, block := some (op.block.block_number : Int) }
          (st', channels.map fun ch => .priorOp ch prior_op_status)
      | none => (st', [])

/-- The level of a dispatched operation: the `commit` flag computed at lines
155–158 of `handle_new_block`. -/
def opCommit (op : Operation) : Bool :=
  match op.action with
  | .Commit => true
  | .Verify => false

/-- The transaction loop of `handle_new_block`, in list order. -/
def dispatchLoop (commit : Bool) (op : Operation) (st : OperationNotifier) :
    List ExecutedOperations → OperationNotifier × List Notification
  | [] => (st, [])
  | tx :: rest =>
      let step := dispatchTx commit op st tx
      let next := dispatchLoop commit op step.1 rest
      (next.1, step.2 ++ next.2)

/-- Embeds `OperationNotifier::handle_new_block` (lines 154–204). -/
def handle_new_block (op : Operation) (st : OperationNotifier) :
    OperationNotifier × List Notification :=
  let commit := opCommit op
  dispatchLoop commit op st op.block.block_transactions

/-- The dispatch of `OperationNotifier::run` on one merged input
(lines 44–47). -/
def handle_input (db_pool : ConnectionPool) (input : BlockNotifierInput)
    (st : OperationNotifier) : OperationNotifier × List Notification :=
  match input with
  | .EventSubscription sub => handle_subscription db_pool sub st
  | .NewOperationCommited op => handle_new_block op st

/-- The event-loop body of `OperationNotifier::run` over an already-merged
finite input sequence, processed one at a time; each input is paired with the
storage contents its `access_storage` calls observe. Returns the final state
and all delivery events in order. -/
def run : OperationNotifier → List (ConnectionPool × BlockNotifierInput) →
    OperationNotifier × List Notification
  | st, [] => (st, [])
  | st, (db_pool, input) :: rest =>
      let step := handle_input db_pool input st
      let next := run step.1 rest
      (next.1, step.2 ++ next.2)

/-- The waiter a notification is delivered to. -/
def Notification.target : Notification → WaiterId
  | .tx n _ => n
  | .priorOp n _ => n

/-- How many of the delivery events in `outs` went to waiter `w`. -/
def notifCount (w : WaiterId) (outs : List Notification) : Nat :=
  (outs.map Notification.target).count w

/-- The waiter handle carried by a subscription request. -/
def waiterOf : EventSubscribe → WaiterId
  | .Transaction _ _ notify => notify
  | .PriorityOp _ _ notify => notify

/-- The level flag carried by a subscription request. -/
def subCommit : EventSubscribe → Bool
  | .Transaction _ commit _ => commit
  | .PriorityOp _ commit _ => commit

/-- How many subscription inputs of the trace carry waiter `w`. -/
def subCount (w : WaiterId) : List (ConnectionPool × BlockNotifierInput) → Nat
  | [] => 0
  | (_, .EventSubscription sub) :: rest =>
      (if waiterOf sub = w then 1 else 0) + subCount w rest
  | (_, .NewOperationCommited _) :: rest => subCount w rest

/-- Occurrences of waiter `w` across all buckets of one map. -/
def bucketOcc (w : WaiterId) (m : List (κ × List WaiterId)) : Nat :=
  (m.map fun kv => kv.2.count w).sum

/-- Occurrences of waiter `w` across the whole registry. -/
def stateOcc (w : WaiterId) (st : OperationNotifier) : Nat :=
  bucketOcc w st.tx_commit_subs + bucketOcc w st.prior_op_commit_subs +
    bucketOcc w st.tx_verify_subs + bucketOcc w st.prior_op_verify_subs

/-- Pool whose `access_storage` fails (connection acquisition error). -/
def failedPool : ConnectionPool := ⟨none⟩

/-- Pool whose connection works but whose every query errors. -/
def errorPool : ConnectionPool :=
  ⟨some { tx_receipt := fun _ => none
          get_executed_priority_op := fun _ => none
          load_stored_op_with_block_number := fun _ _ => none }⟩

/-- Pool whose store answers every query with "no row". -/
def emptyPool : ConnectionPool :=
  ⟨some { tx_receipt := fun _ => some none
          get_executed_priority_op := fun _ => some none
          load_stored_op_with_block_number := fun _ _ => none }⟩

/-- The registration the resolver falls through to when the store gives no
satisfying status (lines 77–95 and 132–150). -/
def registerOf (new_sub : EventSubscribe) (st : OperationNotifier) :
    OperationNotifier × List Notification :=
  match new_sub with
  | .Transaction hash commit notify => registerTx commit hash notify st
  | .PriorityOp serial_id commit notify =>
      registerPriorityOp commit serial_id notify st

/-- A registry state is reachable when some merged input sequence drives the
freshly started notifier to it. -/
def Reachable (st : OperationNotifier) : Prop :=
  ∃ trace : List (ConnectionPool × BlockNotifierInput),
    (run initialNotifier trace).1 = st

/-- Does a block entity carry the identity (and kind) a subscription waits
for? -/
def entityMatches : ExecutedOperations → EventSubscribe → Bool
  | .Tx tx, .Transaction hash _ _ => tx.hash = hash
  | .PriorityOp prior_op, .PriorityOp serial_id _ _ => prior_op.serial_id = serial_id
  | _, _ => false

/-- A dispatched operation confirms a subscription's entity at the
subscription's level: matching level tag and a matching entity in the block. -/
def confirms (op : Operation) (sub : EventSubscribe) : Prop :=
  opCommit op = subCommit sub ∧
    ∃ e ∈ op.block.block_transactions, entityMatches e sub = true

instance (op : Operation) (sub : EventSubscribe) : Decidable (confirms op sub) := by
  unfold confirms; infer_instance

/-- The registry entry under the key and map a subscription's identity and
level select. -/
def bucketLookup (sub : EventSubscribe) (st : OperationNotifier) :
    Option (List WaiterId) :=
  match sub with
  | .Transaction hash commit _ =>
      alistLookup hash (if commit then st.tx_commit_subs else st.tx_verify_subs)
  | .PriorityOp serial_id commit _ =>
      alistLookup serial_id
        (if commit then st.prior_op_commit_subs else st.prior_op_verify_subs)

/-- Membership of waiter `w` in the bucket a subscription would be
registered into. -/
def inBucket (sub : EventSubscribe) (w : WaiterId) (st : OperationNotifier) :
    Prop :=
  w ∈ (bucketLookup sub st).getD []

/-- The length of the bucket a subscription would be registered into. -/
def bucketLen (sub : EventSubscribe) (st : OperationNotifier) : Nat :=
  ((bucketLookup sub st).getD []).length

/-- Two registry states hold the same bucket under every key of every one of
the four maps. -/
def sameLookups (st₁ st₂ : OperationNotifier) : Prop :=
  (∀ k : TxHash, alistLookup k st₁.tx_commit_subs = alistLookup k st₂.tx_commit_subs) ∧
  (∀ k : Nat, alistLookup k st₁.prior_op_commit_subs = alistLookup k st₂.prior_op_commit_subs) ∧
  (∀ k : TxHash, alistLookup k st₁.tx_verify_subs = alistLookup k st₂.tx_verify_subs) ∧
  (∀ k : Nat, alistLookup k st₁.prior_op_verify_subs = alistLookup k st₂.prior_op_verify_subs)

/-- The keys of the association list are pairwise distinct. -/
def NodupKeys (m : List (κ × α)) : Prop := (m.map Prod.fst).Nodup

/-- Well-formedness of one waiter map: duplicate-free keys, every stored
bucket within capacity and nonempty. -/
def MapWF (m : List (κ × List WaiterId)) : Prop :=
  NodupKeys m ∧ ∀ kv ∈ m, kv.2.length ≤ MAX_LISTENERS_PER_ENTITY ∧ kv.2 ≠ []

/-- Well-formedness of the whole registry. -/
def WF (st : OperationNotifier) : Prop :=
  MapWF st.tx_commit_subs ∧ MapWF st.prior_op_commit_subs ∧
    MapWF st.tx_verify_subs ∧ MapWF st.prior_op_verify_subs

/-- A notification is well-shaped when, if it carries a priority-op status,
that status has `executed = true` and a present block number. -/
def PriorOpStatusOk : Notification → Prop
  | .tx _ _ => True
  | .priorOp _ s => s.executed = true ∧ s.block ≠ none

/-- A subscription's store interaction fails: either acquiring the connection
fails, or the query used for immediate resolution returns an error. -/
def storeFails (db_pool : ConnectionPool) (sub : EventSubscribe) : Prop :=
  db_pool.access_storage = none ∨
    ∀ s, db_pool.access_storage = some s →
      (match sub with
       | .Transaction hash _ _ => s.tx_receipt hash = none
       | .PriorityOp serial_id _ _ =>
           s.get_executed_priority_op (serial_id % U32_MOD) = none)

/-! Concrete inputs used by the theorems below. -/

/-- A transaction hash used in concrete runs. -/
def ceHash : TxHash := [1]

/-- One subscription input for `ceHash` at the `Committed` level, waiter `i`,
with a store whose connection fails (so nothing resolves immediately). -/
def ceSub (i : Nat) : ConnectionPool × BlockNotifierInput :=
  (failedPool, .EventSubscription (.Transaction ceHash true i))

/-- `n` such subscriptions with waiters `0, …, n-1`. -/
def ceTrace (n : Nat) : List (ConnectionPool × BlockNotifierInput) :=
  (List.range n).map ceSub

/-- A Commit operation for block 10 whose only entity is a successful
transaction with hash `ceHash`. -/
def ceBlock : Operation := ⟨.Commit, ⟨10, [.Tx ⟨ceHash, true, none⟩]⟩⟩

/-- The dispatch input for `ceBlock`. -/
def ceDispatch : ConnectionPool × BlockNotifierInput :=
  (failedPool, .NewOperationCommited ceBlock)

/-- The subscription whose waiter id is 4096: the 4097th subscription of
`ceTrace 4097`. -/
def ceSubLast : EventSubscribe := .Transaction ceHash true 4096

/-- 4097 subscriptions for the same hash and level followed by a confirming
dispatch. -/
def ceInput : List (ConnectionPool × BlockNotifierInput) :=
  ceTrace 4097 ++ [ceDispatch]

/-- The registry after `n ≥ 1` subscriptions of `ceTrace`: one bucket under
`ceHash` holding `min n 4096` waiters. -/
def ceNotifier (n : Nat) : OperationNotifier :=
  { initialNotifier with tx_commit_subs := [(ceHash, List.range (min n 4096))] }

/-- The receipt `handle_new_block` builds for `ceHash` in `ceBlock`. -/
def ceReceipt : TxReceiptResponse :=
  { tx_hash := hexEncode ceHash
    block_number := 10
    success := true
    fail_reason := none
    verified := false
    prover_run := none }

/-- A pool whose store has an executed priority operation (at block 5) only
under `u32` key 0, and nothing else. -/
def c4pool : ConnectionPool :=
  ⟨some { tx_receipt := fun _ => some none
          get_executed_priority_op := fun k =>
            if k = 0 then some (some ⟨5⟩) else some none
          load_stored_op_with_block_number := fun _ _ => none }⟩

/-- A 32-byte hash with bytes `0, …, 31`. -/
def c8hash : TxHash := List.range 32

/-- The outcome Scenario A expects for `c8hash` committed in block 10. -/
def c8receipt : TxReceiptResponse :=
  { tx_hash := hexEncode c8hash
    block_number := 10
    success := true
    fail_reason := none
    verified := false
    prover_run := none }

/-- Scenario A and D: two `Committed` subscriptions for `c8hash` against an
empty store, then a Commit dispatch for block 10 containing that hash. -/
def c8trace : List (ConnectionPool × BlockNotifierInput) :=
  [(emptyPool, .EventSubscription (.Transaction c8hash true 100)),
   (emptyPool, .EventSubscription (.Transaction c8hash true 200)),
   (failedPool, .NewOperationCommited ⟨.Commit, ⟨10, [.Tx ⟨c8hash, true, none⟩]⟩⟩)]

/-- A registered-then-drained waiter 7: subscription against an empty store,
then a confirming dispatch. -/
def c2trace : List (ConnectionPool × BlockNotifierInput) :=
  [(emptyPool, .EventSubscription (.Transaction [2] true 7)),
   (failedPool, .NewOperationCommited ⟨.Commit, ⟨3, [.Tx ⟨[2], true, none⟩]⟩⟩)]

/-- A verified receipt as a store could return it. -/
def c3receiptV : TxReceiptResponse :=
  { tx_hash := "", block_number := 4, success := true, fail_reason := none
    verified := true, prover_run := none }

/-- The same receipt, not yet verified. -/
def c3receiptU : TxReceiptResponse :=
  { tx_hash := "", block_number := 4, success := true, fail_reason := none
    verified := false, prover_run := none }

/-- A pool whose store answers with a verified receipt, an executed priority
operation at block 6 and a confirmed verify action. -/
def c3poolV : ConnectionPool :=
  ⟨some { tx_receipt := fun _ => some (some c3receiptV)
          get_executed_priority_op := fun _ => some (some ⟨6⟩)
          load_stored_op_with_block_number := fun _ _ => some ⟨true⟩ }⟩

/-- A pool whose store answers with an unverified receipt, an executed
priority operation at block 6 and an unconfirmed verify action. -/
def c3poolU : ConnectionPool :=
  ⟨some { tx_receipt := fun _ => some (some c3receiptU)
          get_executed_priority_op := fun _ => some (some ⟨6⟩)
          load_stored_op_with_block_number := fun _ _ => some ⟨false⟩ }⟩

/-- A subscription used to exercise the store-failure path. -/
def c7sub : EventSubscribe := .Transaction [4] true 9

/-- A pool whose store has every priority operation executed at block 3. -/
def c10pool : ConnectionPool :=
  ⟨some { tx_receipt := fun _ => some none
          get_executed_priority_op := fun _ => some (some ⟨3⟩)
          load_stored_op_with_block_number := fun _ _ => none }⟩

/-- One priority-op subscription answered immediately from `c10pool`. -/
def c10trace : List (ConnectionPool × BlockNotifierInput) :=
  [(c10pool, .EventSubscription (.PriorityOp 9 true 5))]

/-- A subscription for hash `[9]` at the `Committed` level, waiter 55. -/
def c1sub : EventSubscribe := .Transaction [9] true 55

/-- A Commit operation for block 2 containing a failed transaction with hash
`[9]`. -/
def c1op : Operation := ⟨.Commit, ⟨2, [.Tx ⟨[9], false, some "err"⟩]⟩⟩

/-- The subscription for `c1sub` (against a failing store) followed by the
confirming dispatch of `c1op`. -/
def c1trace : List (ConnectionPool × BlockNotifierInput) :=
  [(failedPool, .EventSubscription c1sub),
   (failedPool, .NewOperationCommited c1op)]

/-- Modelled from the spec: the merge of the two input feeds performed by
`start_sub_notifier` through `Stream::select` and driven to completion by
`FinishStream::finish` — both outside this repository's sources (only their
caller at lines 222–225 is). Spec §4.5: the loop merges the two feeds into one
interleaved sequence, preserving each feed's own order, with no interleaving
guarantee beyond that, and "either source feed ending terminates the loop".
The `sched` argument is the unspecified interleaving choice: at each step the
loop takes the head of the feed `sched` selects, and it stops as soon as
either feed has ended. -/
def mergeLoop : List Operation → List EventSubscribe → List Bool →
    List BlockNotifierInput
  | [], _, _ => []
  | _, [], _ => []
  | _ :: _, _ :: _, [] => []
  | b :: bs, s :: ss, pick :: sched =>
      if pick then .NewOperationCommited b :: mergeLoop bs (s :: ss) sched
      else .EventSubscription s :: mergeLoop (b :: bs) ss sched

/-! Association-list lemmas. -/

theorem alistLookup_alistInsert [DecidableEq κ] (k k' : κ) (v : α)
    (m : List (κ × α)) :
    alistLookup k (alistInsert k' v m) = if k = k' then some v else alistLookup k m := by
  induction m with
  | nil => by_cases h : k = k' <;> simp [alistInsert, alistLookup, h]
  | cons hd tl ih =>
      obtain ⟨k₀, v₀⟩ := hd
      by_cases h : k' = k₀
      · subst h
        by_cases h' : k = k' <;> simp [alistInsert, alistLookup, h']
      · by_cases h' : k = k₀
        · subst h'
          simp [alistInsert, alistLookup, h, Ne.symm h]
        · simp [alistInsert, alistLookup, h, h', ih]

theorem alistLookup_alistErase_ne [DecidableEq κ] {k k' : κ} (h : k ≠ k')
    (m : List (κ × α)) :
    alistLookup k (alistErase k' m) = alistLookup k m := by
  induction m with
  | nil => rfl
  | cons hd tl ih =>
      obtain ⟨k₀, v₀⟩ := hd
      by_cases h₀ : k' = k₀
      · subst h₀
        simp [alistErase, alistLookup, h]
      · by_cases h₁ : k = k₀ <;> simp [alistErase, alistLookup, h₀, h₁, ih]

theorem alistLookup_alistErase_none [DecidableEq κ] (k k' : κ)
    {m : List (κ × α)} (h : alistLookup k m = none) :
    alistLookup k (alistErase k' m) = none := by
  induction m with
  | nil => rfl
  | cons hd tl ih =>
      obtain ⟨k₀, v₀⟩ := hd
      by_cases h₀ : k = k₀
      · simp [alistLookup, h₀] at h
      · simp [alistLookup, h₀] at h
        by_cases h₁ : k' = k₀
        · simpa [alistErase, h₁] using h
        · simp [alistErase, alistLookup, h₀, h₁, ih h]

theorem mem_of_alistLookup [DecidableEq κ] {k : κ} {v : α} {m : List (κ × α)}
    (h : alistLookup k m = some v) : (k, v) ∈ m := by
  induction m with
  | nil => simp [alistLookup] at h
  | cons hd tl ih =>
      obtain ⟨k₀, v₀⟩ := hd
      by_cases h₀ : k = k₀
      · subst h₀
        simp [alistLookup] at h
        simp [h]
      · simp [alistLookup, h₀] at h
        exact List.mem_cons_of_mem _ (ih h)

theorem mem_of_mem_alistErase [DecidableEq κ] {k : κ} {p : κ × α}
    {m : List (κ × α)} (h : p ∈ alistErase k m) : p ∈ m := by
  induction m with
  | nil => simp [alistErase] at h
  | cons hd tl ih =>
      obtain ⟨k₀, v₀⟩ := hd
      by_cases h₀ : k = k₀
      · simp [alistErase, h₀] at h
        exact List.mem_cons_of_mem _ h
      · simp [alistErase, h₀] at h
        rcases h with h | h
        · simp [h]
        · exact List.mem_cons_of_mem _ (ih h)

theorem mem_alistInsert [DecidableEq κ] {k : κ} {v : α} {p : κ × α}
    {m : List (κ × α)} (h : p ∈ alistInsert k v m) : p = (k, v) ∨ p ∈ m := by
  induction m with
  | nil =>
      simp [alistInsert] at h
      exact Or.inl h
  | cons hd tl ih =>
      obtain ⟨k₀, v₀⟩ := hd
      by_cases h₀ : k = k₀
      · simp [alistInsert, h₀] at h
        rcases h with h | h
        · subst h₀; exact Or.inl (by simp [h])
        · exact Or.inr (List.mem_cons_of_mem _ h)
      · simp [alistInsert, h₀] at h
        rcases h with h | h
        · exact Or.inr (by simp [h])
        · rcases ih h with h' | h'
          · exact Or.inl h'
          · exact Or.inr (List.mem_cons_of_mem _ h')

/-! Duplicate-free keys, as a real `BTreeMap` guarantees. -/

theorem keys_alistErase_sublist [DecidableEq κ] (k : κ) (m : List (κ × α)) :
    List.Sublist ((alistErase k m).map Prod.fst) (m.map Prod.fst) := by
  induction m with
  | nil => simp [alistErase]
  | cons hd tl ih =>
      obtain ⟨k₀, v₀⟩ := hd
      by_cases h₀ : k = k₀
      · simp only [alistErase, if_pos h₀]
        exact List.sublist_cons_self _ _
      · simpa [alistErase, h₀] using ih.cons₂ k₀

theorem NodupKeys.alistErase [DecidableEq κ] {m : List (κ × α)}
    (h : NodupKeys m) (k : κ) : NodupKeys (alistErase k m) :=
  List.Nodup.sublist (keys_alistErase_sublist k m) h

theorem mem_keys_alistInsert [DecidableEq κ] {a k : κ} {v : α}
    {m : List (κ × α)} (h : a ∈ (alistInsert k v m).map Prod.fst) :
    a = k ∨ a ∈ m.map Prod.fst := by
  simp only [List.mem_map] at h
  obtain ⟨p, hp, hpa⟩ := h
  rcases mem_alistInsert hp with h' | h'
  · exact Or.inl (by rw [← hpa, h'])
  · exact Or.inr (List.mem_map.2 ⟨p, h', hpa⟩)

theorem NodupKeys.alistInsert [DecidableEq κ] {m : List (κ × α)}
    (h : NodupKeys m) (k : κ) (v : α) : NodupKeys (alistInsert k v m) := by
  induction m with
  | nil => simp [EventNotify.alistInsert, NodupKeys]
  | cons hd tl ih =>
      obtain ⟨k₀, v₀⟩ := hd
      simp only [NodupKeys, List.map_cons, List.nodup_cons] at h
      by_cases h₀ : k = k₀
      · subst h₀
        simpa [EventNotify.alistInsert, NodupKeys] using h
      · have htl := ih h.2
        have heq : EventNotify.alistInsert k v ((k₀, v₀) :: tl) =
            (k₀, v₀) :: EventNotify.alistInsert k v tl := by
          simp [EventNotify.alistInsert, h₀]
        rw [NodupKeys, heq, List.map_cons, List.nodup_cons]
        refine ⟨fun hmem => ?_, htl⟩
        rcases mem_keys_alistInsert hmem with h' | h'
        · exact h₀ h'.symm
        · exact h.1 h'

theorem alistLookup_alistErase_self [DecidableEq κ] {m : List (κ × α)}
    (h : NodupKeys m) (k : κ) : alistLookup k (alistErase k m) = none := by
  induction m with
  | nil => rfl
  | cons hd tl ih =>
      obtain ⟨k₀, v₀⟩ := hd
      simp only [NodupKeys, List.map_cons, List.nodup_cons] at h
      by_cases h₀ : k = k₀
      · subst h₀
        simp only [alistErase, if_pos rfl]
        cases hlook : alistLookup k tl with
        | none => exact hlook
        | some v =>
            exact absurd (List.mem_map.2 ⟨(k, v), mem_of_alistLookup hlook, rfl⟩) h.1
      · simp [alistErase, alistLookup, h₀, ih h.2]

/-! Waiter-occurrence counting lemmas. -/

theorem bucketOcc_cons (w : WaiterId) (k : κ) (v : List WaiterId)
    (m : List (κ × List WaiterId)) :
    bucketOcc w ((k, v) :: m) = v.count w + bucketOcc w m := by
  simp [bucketOcc]

theorem bucketOcc_alistErase_add_lookup [DecidableEq κ] (w : WaiterId) (k : κ)
    (m : List (κ × List WaiterId)) :
    bucketOcc w (alistErase k m) + ((alistLookup k m).getD []).count w =
      bucketOcc w m := by
  induction m with
  | nil => simp [alistErase, alistLookup, bucketOcc]
  | cons hd tl ih =>
      obtain ⟨k₀, v₀⟩ := hd
      by_cases h₀ : k = k₀
      · simp only [alistErase, alistLookup, if_pos h₀, Option.getD_some,
          bucketOcc_cons]
        omega
      · simp only [alistErase, alistLookup, if_neg h₀, bucketOcc_cons]
        omega

theorem bucketOcc_alistErase_le [DecidableEq κ] (w : WaiterId) (k : κ)
    (m : List (κ × List WaiterId)) :
    bucketOcc w (alistErase k m) ≤ bucketOcc w m := by
  have := bucketOcc_alistErase_add_lookup w k m
  omega

theorem bucketOcc_alistInsert [DecidableEq κ] (w : WaiterId) (k : κ)
    (v : List WaiterId) (m : List (κ × List WaiterId)) :
    bucketOcc w (alistInsert k v m) =
      bucketOcc w (alistErase k m) + v.count w := by
  induction m with
  | nil => simp [alistInsert, alistErase, bucketOcc]
  | cons hd tl ih =>
      obtain ⟨k₀, v₀⟩ := hd
      by_cases h₀ : k = k₀
      · simp only [alistInsert, alistErase, if_pos h₀, bucketOcc_cons]
        omega
      · simp only [alistInsert, alistErase, if_neg h₀, bucketOcc_cons]
        omega

/-! Shape lemmas for the registration paths. -/

theorem registerTx_snd (commit : Bool) (hash : TxHash) (notify : WaiterId)
    (st : OperationNotifier) : (registerTx commit hash notify st).2 = [] := by
  cases commit <;> simp [registerTx]

theorem registerPriorityOp_snd (commit : Bool) (serial_id : Nat)
    (notify : WaiterId) (st : OperationNotifier) :
    (registerPriorityOp commit serial_id notify st).2 = [] := by
  cases commit <;> simp [registerPriorityOp]

theorem registerOf_snd (sub : EventSubscribe) (st : OperationNotifier) :
    (registerOf sub st).2 = [] := by
  cases sub <;> simp [registerOf, registerTx_snd, registerPriorityOp_snd]

/-! Delivery-count lemmas. -/

theorem notifCount_nil (w : WaiterId) : notifCount w [] = 0 := rfl

theorem notifCount_append (w : WaiterId) (a b : List Notification) :
    notifCount w (a ++ b) = notifCount w a + notifCount w b := by
  simp [notifCount, List.count_append]

theorem notifCount_map_tx (w : WaiterId) (channels : List WaiterId)
    (r : TxReceiptResponse) :
    notifCount w (channels.map fun ch => Notification.tx ch r) =
      channels.count w := by
  simp [notifCount, List.map_map, Function.comp_def, Notification.target]

theorem notifCount_map_priorOp (w : WaiterId) (channels : List WaiterId)
    (s : PriorityOpStatus) :
    notifCount w (channels.map fun ch => Notification.priorOp ch s) =
      channels.count w := by
  simp [notifCount, List.map_map, Function.comp_def, Notification.target]

theorem notifCount_singleton (w : WaiterId) (e : Notification) :
    notifCount w [e] = if e.target = w then 1 else 0 := by
  by_cases h : e.target = w
  · rw [if_pos h]
    simp [notifCount, h, List.count_singleton]
  · rw [if_neg h]
    simp only [notifCount, List.map_cons, List.map_nil]
    rw [List.count_eq_zero]
    exact fun h' => h (List.mem_singleton.1 h').symm

theorem count_append_singleton (w n : Nat) (l : List Nat) :
    (l ++ [n]).count w = l.count w + (if n = w then 1 else 0) := by
  by_cases h : n = w
  · subst h; simp [List.count_append]
  · rw [if_neg h, List.count_append]
    have : List.count w [n] = 0 := by
      rw [List.count_eq_zero]
      exact fun h' => h (List.mem_singleton.1 h').symm
    omega

/-! Occurrence accounting for one registration on one map. -/

theorem bucketOcc_registerStep [DecidableEq κ] (w : WaiterId) (k : κ)
    (notify : WaiterId) (m : List (κ × List WaiterId)) :
    bucketOcc w
      (alistInsert k
        (if ((alistLookup k m).getD []).length < MAX_LISTENERS_PER_ENTITY
         then (alistLookup k m).getD [] ++ [notify]
         else (alistLookup k m).getD [])
        (alistErase k m)) ≤ bucketOcc w m + (if notify = w then 1 else 0) := by
  have hA := bucketOcc_alistInsert w k
    (if ((alistLookup k m).getD []).length < MAX_LISTENERS_PER_ENTITY
     then (alistLookup k m).getD [] ++ [notify]
     else (alistLookup k m).getD []) (alistErase k m)
  have hB := bucketOcc_alistErase_le w k (alistErase k m)
  have hC := bucketOcc_alistErase_add_lookup w k m
  have hcount :
      (if ((alistLookup k m).getD []).length < MAX_LISTENERS_PER_ENTITY
       then (alistLookup k m).getD [] ++ [notify]
       else (alistLookup k m).getD []).count w ≤
        ((alistLookup k m).getD []).count w + (if notify = w then 1 else 0) := by
    split
    · rw [count_append_singleton]
    · omega
  omega

theorem stateOcc_registerTx (w : WaiterId) (commit : Bool) (hash : TxHash)
    (notify : WaiterId) (st : OperationNotifier) :
    stateOcc w (registerTx commit hash notify st).1 ≤
      stateOcc w st + (if notify = w then 1 else 0) := by
  cases commit
  · have hkey := bucketOcc_registerStep w hash notify st.tx_verify_subs
    simp only [registerTx, Bool.false_eq_true, if_neg, ite_false, stateOcc]
    omega
  · have hkey := bucketOcc_registerStep w hash notify st.tx_commit_subs
    simp only [registerTx, ite_true, stateOcc]
    omega

theorem stateOcc_registerPriorityOp (w : WaiterId) (commit : Bool)
    (serial_id : Nat) (notify : WaiterId) (st : OperationNotifier) :
    stateOcc w (registerPriorityOp commit serial_id notify st).1 ≤
      stateOcc w st + (if notify = w then 1 else 0) := by
  cases commit
  · have hkey := bucketOcc_registerStep w serial_id notify st.prior_op_verify_subs
    simp only [registerPriorityOp, Bool.false_eq_true, if_neg, ite_false, stateOcc]
    omega
  · have hkey := bucketOcc_registerStep w serial_id notify st.prior_op_commit_subs
    simp only [registerPriorityOp, ite_true, stateOcc]
    omega

theorem stateOcc_registerOf (w : WaiterId) (sub : EventSubscribe)
    (st : OperationNotifier) :
    stateOcc w (registerOf sub st).1 ≤
      stateOcc w st + (if waiterOf sub = w then 1 else 0) := by
  cases sub with
  | Transaction hash commit notify =>
      simpa [registerOf, waiterOf] using
        stateOcc_registerTx w commit hash notify st
  | PriorityOp serial_id commit notify =>
      simpa [registerOf, waiterOf] using
        stateOcc_registerPriorityOp w commit serial_id notify st

/-! Occurrence accounting for the resolver and the dispatcher. -/

theorem handle_subscription_occ (w : WaiterId) (db_pool : ConnectionPool)
    (sub : EventSubscribe) (st : OperationNotifier) :
    stateOcc w (handle_subscription db_pool sub st).1 +
      notifCount w (handle_subscription db_pool sub st).2 ≤
        stateOcc w st + (if waiterOf sub = w then 1 else 0) := by
  cases sub with
  | Transaction hash commit notify =>
      have hreg := stateOcc_registerTx w commit hash notify st
      have hregout := registerTx_snd commit hash notify st
      simp only [handle_subscription, waiterOf]
      cases hq : txReceiptQuery db_pool hash with
      | none => simp only [hregout, notifCount_nil]; omega
      | some receipt =>
          by_cases hc : commit
          · subst hc
            simp only [ite_true, notifCount_singleton, Notification.target]
            omega
          · simp only [if_neg hc]
            by_cases hv : receipt.verified
            · simp only [hv, ite_true, notifCount_singleton, Notification.target]
              omega
            · simp only [hv, Bool.false_eq_true, ite_false, hregout, notifCount_nil]
              omega
  | PriorityOp serial_id commit notify =>
      have hreg := stateOcc_registerPriorityOp w commit serial_id notify st
      have hregout := registerPriorityOp_snd commit serial_id notify st
      simp only [handle_subscription, waiterOf]
      cases hq : executedPriorityOpQuery db_pool serial_id with
      | none => simp only [hregout, notifCount_nil]; omega
      | some executed_op =>
          by_cases hc : commit
          · subst hc
            simp only [ite_true, notifCount_singleton, Notification.target]
            omega
          · simp only [if_neg hc]
            cases hbv : blockVerifyQuery db_pool executed_op.block_number with
            | none => simp only [hregout, notifCount_nil]; omega
            | some block_verify =>
                by_cases hconf : block_verify.confirmed
                · simp only [hconf, ite_true, notifCount_singleton,
                    Notification.target]
                  omega
                · simp only [hconf, Bool.false_eq_true, ite_false, hregout,
                    notifCount_nil]
                  omega

theorem dispatchTx_occ (w : WaiterId) (commit : Bool) (op : Operation)
    (st : OperationNotifier) (e : ExecutedOperations) :
    stateOcc w (dispatchTx commit op st e).1 +
      notifCount w (dispatchTx commit op st e).2 = stateOcc w st := by
  cases e with
  | Tx tx =>
      cases commit
      · have hC := bucketOcc_alistErase_add_lookup w tx.hash st.tx_verify_subs
        cases hlook : alistLookup tx.hash st.tx_verify_subs with
        | none =>
            simp only [dispatchTx, Bool.false_eq_true, ite_false, hlook,
              notifCount_nil, stateOcc]
            rw [hlook] at hC
            simp only [Option.getD_none, List.count_nil] at hC
            omega
        | some channels =>
            simp only [dispatchTx, Bool.false_eq_true, ite_false, hlook,
              notifCount_map_tx, stateOcc]
            rw [hlook] at hC
            simp only [Option.getD_some] at hC
            omega
      · have hC := bucketOcc_alistErase_add_lookup w tx.hash st.tx_commit_subs
        cases hlook : alistLookup tx.hash st.tx_commit_subs with
        | none =>
            simp only [dispatchTx, ite_true, hlook, notifCount_nil, stateOcc]
            rw [hlook] at hC
            simp only [Option.getD_none, List.count_nil] at hC
            omega
        | some channels =>
            simp only [dispatchTx, ite_true, hlook, notifCount_map_tx, stateOcc]
            rw [hlook] at hC
            simp only [Option.getD_some] at hC
            omega
  | PriorityOp prior_op =>
      cases commit
      · have hC := bucketOcc_alistErase_add_lookup w prior_op.serial_id
          st.prior_op_verify_subs
        cases hlook : alistLookup prior_op.serial_id st.prior_op_verify_subs with
        | none =>
            simp only [dispatchTx, Bool.false_eq_true, ite_false, hlook,
              notifCount_nil, stateOcc]
            rw [hlook] at hC
            simp only [Option.getD_none, List.count_nil] at hC
            omega
        | some channels =>
            simp only [dispatchTx, Bool.false_eq_true, ite_false, hlook,
              notifCount_map_priorOp, stateOcc]
            rw [hlook] at hC
            simp only [Option.getD_some] at hC
            omega
      · have hC := bucketOcc_alistErase_add_lookup w prior_op.serial_id
          st.prior_op_commit_subs
        cases hlook : alistLookup prior_op.serial_id st.prior_op_commit_subs with
        | none =>
            simp only [dispatchTx, ite_true, hlook, notifCount_nil, stateOcc]
            rw [hlook] at hC
            simp only [Option.getD_none, List.count_nil] at hC
            omega
        | some channels =>
            simp only [dispatchTx, ite_true, hlook, notifCount_map_priorOp,
              stateOcc]
            rw [hlook] at hC
            simp only [Option.getD_some] at hC
            omega

theorem dispatchLoop_occ (w : WaiterId) (commit : Bool) (op : Operation)
    (txs : List ExecutedOperations) (st : OperationNotifier) :
    stateOcc w (dispatchLoop commit op st txs).1 +
      notifCount w (dispatchLoop commit op st txs).2 = stateOcc w st := by
  induction txs generalizing st with
  | nil => simp [dispatchLoop, notifCount_nil]
  | cons e rest ih =>
      have hstep := dispatchTx_occ w commit op st e
      have hrest := ih (dispatchTx commit op st e).1
      simp only [dispatchLoop, notifCount_append]
      omega

theorem handle_new_block_occ (w : WaiterId) (op : Operation)
    (st : OperationNotifier) :
    stateOcc w (handle_new_block op st).1 +
      notifCount w (handle_new_block op st).2 = stateOcc w st := by
  simp only [handle_new_block]
  exact dispatchLoop_occ w _ op op.block.block_transactions st

theorem handle_input_occ (w : WaiterId) (db_pool : ConnectionPool)
    (input : BlockNotifierInput) (st : OperationNotifier) :
    stateOcc w (handle_input db_pool input st).1 +
      notifCount w (handle_input db_pool input st).2 ≤
        stateOcc w st + subCount w [(db_pool, input)] := by
  cases input with
  | EventSubscription sub =>
      simpa [handle_input, subCount] using
        handle_subscription_occ w db_pool sub st
  | NewOperationCommited op =>
      simp only [handle_input, subCount]
      have := handle_new_block_occ w op st
      omega

theorem run_occ (w : WaiterId)
    (trace : List (ConnectionPool × BlockNotifierInput))
    (st : OperationNotifier) :
    stateOcc w (run st trace).1 + notifCount w (run st trace).2 ≤
      stateOcc w st + subCount w trace := by
  induction trace generalizing st with
  | nil => simp [run, notifCount_nil]
  | cons hd rest ih =>
      obtain ⟨db_pool, input⟩ := hd
      have hstep := handle_input_occ w db_pool input st
      have hrest := ih (handle_input db_pool input st).1
      have hsplit : subCount w ((db_pool, input) :: rest) =
          subCount w [(db_pool, input)] + subCount w rest := by
        cases input <;> simp [subCount]
      simp only [run, notifCount_append, hsplit]
      omega

theorem run_append (st : OperationNotifier)
    (xs ys : List (ConnectionPool × BlockNotifierInput)) :
    run st (xs ++ ys) =
      ((run (run st xs).1 ys).1, (run st xs).2 ++ (run (run st xs).1 ys).2) := by
  induction xs generalizing st with
  | nil => simp [run]
  | cons hd rest ih =>
      obtain ⟨db_pool, input⟩ := hd
      simp [run, ih, List.append_assoc]

theorem stateOcc_initial (w : WaiterId) : stateOcc w initialNotifier = 0 := rfl

/-! The resolver either answers immediately and leaves the registry alone, or
falls through to the registration code. -/

theorem handle_subscription_cases (db_pool : ConnectionPool)
    (sub : EventSubscribe) (st : OperationNotifier) :
    ((handle_subscription db_pool sub st).1 = st ∧
      (handle_subscription db_pool sub st).2.map Notification.target =
        [waiterOf sub]) ∨
    handle_subscription db_pool sub st = registerOf sub st := by
  cases sub with
  | Transaction hash commit notify =>
      simp only [handle_subscription, waiterOf, registerOf]
      cases txReceiptQuery db_pool hash with
      | none => exact Or.inr rfl
      | some receipt =>
          by_cases hc : commit
          · simp [hc, Notification.target]
          · by_cases hv : receipt.verified
            · simp [hc, hv, Notification.target]
            · simp [hc, hv]
  | PriorityOp serial_id commit notify =>
      simp only [handle_subscription, waiterOf, registerOf]
      cases executedPriorityOpQuery db_pool serial_id with
      | none => exact Or.inr rfl
      | some executed_op =>
          by_cases hc : commit
          · simp [hc, Notification.target]
          · simp only [if_neg hc]
            cases blockVerifyQuery db_pool executed_op.block_number with
            | none => simp
            | some block_verify =>
                by_cases hconf : block_verify.confirmed
                · simp [hconf, Notification.target]
                · simp [hconf]

/-! Well-formedness the registry maintains: duplicate-free keys, every stored
bucket within capacity and nonempty. -/

theorem MapWF.eraseKey [DecidableEq κ] {m : List (κ × List WaiterId)}
    (h : MapWF m) (k : κ) : MapWF (alistErase k m) :=
  ⟨h.1.alistErase k, fun kv hkv => h.2 kv (mem_of_mem_alistErase hkv)⟩

theorem MapWF.registerStep [DecidableEq κ] {m : List (κ × List WaiterId)}
    (h : MapWF m) (k : κ) (notify : WaiterId) :
    MapWF (alistInsert k
      (if ((alistLookup k m).getD []).length < MAX_LISTENERS_PER_ENTITY
       then (alistLookup k m).getD [] ++ [notify]
       else (alistLookup k m).getD [])
      (EventNotify.alistErase k m)) := by
  constructor
  · exact (h.1.alistErase k).alistInsert k _
  · intro kv hkv
    rcases mem_alistInsert hkv with hkv | hkv
    · subst hkv
      cases hlook : alistLookup k m with
      | none =>
          simp only [hlook, Option.getD_none, List.length_nil]
          have : (0 : Nat) < MAX_LISTENERS_PER_ENTITY := by
            simp [MAX_LISTENERS_PER_ENTITY]
          simp [this, MAX_LISTENERS_PER_ENTITY]
      | some l =>
          have hl := h.2 (k, l) (mem_of_alistLookup hlook)
          simp only [hlook, Option.getD_some]
          by_cases hlen : l.length < MAX_LISTENERS_PER_ENTITY
          · simp only [hlen, ite_true]
            constructor
            · simp only [List.length_append, List.length_singleton]
              omega
            · simp
          · simp only [hlen, ite_false]
            exact hl
    · exact h.2 kv (mem_of_mem_alistErase hkv)

theorem WF_registerTx {st : OperationNotifier} (h : WF st) (commit : Bool)
    (hash : TxHash) (notify : WaiterId) :
    WF (registerTx commit hash notify st).1 := by
  obtain ⟨h₁, h₂, h₃, h₄⟩ := h
  cases commit
  · exact ⟨h₁, h₂, h₃.registerStep hash notify, h₄⟩
  · exact ⟨h₁.registerStep hash notify, h₂, h₃, h₄⟩

theorem WF_registerPriorityOp {st : OperationNotifier} (h : WF st)
    (commit : Bool) (serial_id : Nat) (notify : WaiterId) :
    WF (registerPriorityOp commit serial_id notify st).1 := by
  obtain ⟨h₁, h₂, h₃, h₄⟩ := h
  cases commit
  · exact ⟨h₁, h₂, h₃, h₄.registerStep serial_id notify⟩
  · exact ⟨h₁, h₂.registerStep serial_id notify, h₃, h₄⟩

theorem WF_registerOf {st : OperationNotifier} (h : WF st)
    (sub : EventSubscribe) : WF (registerOf sub st).1 := by
  cases sub with
  | Transaction hash commit notify => exact WF_registerTx h commit hash notify
  | PriorityOp serial_id commit notify =>
      exact WF_registerPriorityOp h commit serial_id notify

theorem WF_handle_subscription {st : OperationNotifier} (h : WF st)
    (db_pool : ConnectionPool) (sub : EventSubscribe) :
    WF (handle_subscription db_pool sub st).1 := by
  rcases handle_subscription_cases db_pool sub st with ⟨hst, _⟩ | heq
  · rw [hst]; exact h
  · rw [heq]; exact WF_registerOf h sub

theorem WF_dispatchTx {st : OperationNotifier} (h : WF st) (commit : Bool)
    (op : Operation) (e : ExecutedOperations) :
    WF (dispatchTx commit op st e).1 := by
  obtain ⟨h₁, h₂, h₃, h₄⟩ := h
  cases e with
  | Tx tx =>
      cases commit
      · cases hlook : alistLookup tx.hash st.tx_verify_subs <;>
          simp only [dispatchTx, Bool.false_eq_true, ite_false, hlook] <;>
          exact ⟨h₁, h₂, h₃.eraseKey tx.hash, h₄⟩
      · cases hlook : alistLookup tx.hash st.tx_commit_subs <;>
          simp only [dispatchTx, ite_true, hlook] <;>
          exact ⟨h₁.eraseKey tx.hash, h₂, h₃, h₄⟩
  | PriorityOp prior_op =>
      cases commit
      · cases hlook : alistLookup prior_op.serial_id st.prior_op_verify_subs <;>
          simp only [dispatchTx, Bool.false_eq_true, ite_false, hlook] <;>
          exact ⟨h₁, h₂, h₃, h₄.eraseKey prior_op.serial_id⟩
      · cases hlook : alistLookup prior_op.serial_id st.prior_op_commit_subs <;>
          simp only [dispatchTx, ite_true, hlook] <;>
          exact ⟨h₁, h₂.eraseKey prior_op.serial_id, h₃, h₄⟩

theorem WF_dispatchLoop {st : OperationNotifier} (h : WF st) (commit : Bool)
    (op : Operation) (txs : List ExecutedOperations) :
    WF (dispatchLoop commit op st txs).1 := by
  induction txs generalizing st with
  | nil => simpa [dispatchLoop] using h
  | cons e rest ih =>
      simp only [dispatchLoop]
      exact ih (WF_dispatchTx h commit op e)

theorem WF_handle_new_block {st : OperationNotifier} (h : WF st)
    (op : Operation) : WF (handle_new_block op st).1 :=
  WF_dispatchLoop h _ op op.block.block_transactions

theorem WF_handle_input {st : OperationNotifier} (h : WF st)
    (db_pool : ConnectionPool) (input : BlockNotifierInput) :
    WF (handle_input db_pool input st).1 := by
  cases input with
  | EventSubscription sub => exact WF_handle_subscription h db_pool sub
  | NewOperationCommited op => exact WF_handle_new_block h op

theorem WF_run {st : OperationNotifier} (h : WF st)
    (trace : List (ConnectionPool × BlockNotifierInput)) :
    WF (run st trace).1 := by
  induction trace generalizing st with
  | nil => simpa [run] using h
  | cons hd rest ih =>
      obtain ⟨db_pool, input⟩ := hd
      simp only [run]
      exact ih (WF_handle_input h db_pool input)

theorem WF_initial : WF initialNotifier := by
  refine ⟨?_, ?_, ?_, ?_⟩ <;> exact ⟨List.nodup_nil, by simp [initialNotifier]⟩

theorem WF_of_Reachable {st : OperationNotifier} (h : Reachable st) : WF st := by
  obtain ⟨trace, htrace⟩ := h
  rw [← htrace]
  exact WF_run WF_initial trace

/-! Membership of a parked waiter in its bucket: creation by registration,
preservation by unrelated inputs, drain by a confirming dispatch. -/

theorem mem_getD_registerStep [DecidableEq κ] (w notify : WaiterId) (k k' : κ)
    (m : List (κ × List WaiterId))
    (h : w ∈ (alistLookup k m).getD []) :
    w ∈ (alistLookup k (alistInsert k'
      (if ((alistLookup k' m).getD []).length < MAX_LISTENERS_PER_ENTITY
       then (alistLookup k' m).getD [] ++ [notify]
       else (alistLookup k' m).getD [])
      (alistErase k' m))).getD [] := by
  rw [alistLookup_alistInsert]
  by_cases hk : k = k'
  · subst hk
    rw [if_pos rfl, Option.getD_some]
    by_cases hlen :
        ((alistLookup k m).getD []).length < MAX_LISTENERS_PER_ENTITY
    · rw [if_pos hlen]; exact List.mem_append_left _ h
    · rw [if_neg hlen]; exact h
  · rw [if_neg hk, alistLookup_alistErase_ne hk]
    exact h

theorem self_mem_registerStep [DecidableEq κ] (notify : WaiterId) (k : κ)
    (m : List (κ × List WaiterId))
    (hlen : ((alistLookup k m).getD []).length < MAX_LISTENERS_PER_ENTITY) :
    notify ∈ (alistLookup k (alistInsert k
      (if ((alistLookup k m).getD []).length < MAX_LISTENERS_PER_ENTITY
       then (alistLookup k m).getD [] ++ [notify]
       else (alistLookup k m).getD [])
      (alistErase k m))).getD [] := by
  rw [alistLookup_alistInsert, if_pos rfl, Option.getD_some, if_pos hlen]
  exact List.mem_append_right _ (List.mem_singleton.2 rfl)

theorem inBucket_registerOf (sub : EventSubscribe) (st : OperationNotifier)
    (hlen : bucketLen sub st < MAX_LISTENERS_PER_ENTITY) :
    inBucket sub (waiterOf sub) (registerOf sub st).1 := by
  cases sub with
  | Transaction hash commit notify =>
      rw [bucketLen] at hlen
      cases commit <;>
        simpa [registerOf, registerTx, inBucket, bucketLookup, waiterOf] using
          self_mem_registerStep notify hash _
            (by simpa [bucketLookup] using hlen)
  | PriorityOp serial_id commit notify =>
      rw [bucketLen] at hlen
      cases commit <;>
        simpa [registerOf, registerPriorityOp, inBucket, bucketLookup,
          waiterOf] using
          self_mem_registerStep notify serial_id _
            (by simpa [bucketLookup] using hlen)

theorem inBucket_registerTx (sub : EventSubscribe) (w : WaiterId)
    (commit : Bool) (hash : TxHash) (notify : WaiterId)
    (st : OperationNotifier) (h : inBucket sub w st) :
    inBucket sub w (registerTx commit hash notify st).1 := by
  cases sub with
  | Transaction hash₀ commit₀ notify₀ =>
      cases commit <;> cases commit₀ <;>
        simp only [inBucket, bucketLookup, registerTx, Bool.false_eq_true,
          ite_false, ite_true] at h ⊢ <;>
        first
          | exact h
          | exact mem_getD_registerStep w notify hash₀ hash _ h
  | PriorityOp sid₀ commit₀ notify₀ =>
      cases commit <;> cases commit₀ <;>
        simp only [inBucket, bucketLookup, registerTx, Bool.false_eq_true,
          ite_false, ite_true] at h ⊢ <;>
        exact h

theorem inBucket_registerPriorityOp (sub : EventSubscribe) (w : WaiterId)
    (commit : Bool) (serial_id : Nat) (notify : WaiterId)
    (st : OperationNotifier) (h : inBucket sub w st) :
    inBucket sub w (registerPriorityOp commit serial_id notify st).1 := by
  cases sub with
  | Transaction hash₀ commit₀ notify₀ =>
      cases commit <;> cases commit₀ <;>
        simp only [inBucket, bucketLookup, registerPriorityOp,
          Bool.false_eq_true, ite_false, ite_true] at h ⊢ <;>
        exact h
  | PriorityOp sid₀ commit₀ notify₀ =>
      cases commit <;> cases commit₀ <;>
        simp only [inBucket, bucketLookup, registerPriorityOp,
          Bool.false_eq_true, ite_false, ite_true] at h ⊢ <;>
        first
          | exact h
          | exact mem_getD_registerStep w notify sid₀ serial_id _ h

theorem inBucket_handle_subscription (sub sub' : EventSubscribe)
    (w : WaiterId) (db_pool : ConnectionPool) (st : OperationNotifier)
    (h : inBucket sub w st) :
    inBucket sub w (handle_subscription db_pool sub' st).1 := by
  rcases handle_subscription_cases db_pool sub' st with ⟨hst, _⟩ | heq
  · rw [hst]; exact h
  · rw [heq]
    cases sub' with
    | Transaction hash commit notify =>
        exact inBucket_registerTx sub w commit hash notify st h
    | PriorityOp serial_id commit notify =>
        exact inBucket_registerPriorityOp sub w commit serial_id notify st h

theorem inBucket_dispatchTx (sub : EventSubscribe) (w : WaiterId)
    (commit : Bool) (op : Operation) (st : OperationNotifier)
    (e : ExecutedOperations)
    (hne : ¬(commit = subCommit sub ∧ entityMatches e sub = true))
    (h : inBucket sub w st) :
    inBucket sub w (dispatchTx commit op st e).1 := by
  cases e with
  | Tx tx =>
      cases sub with
      | Transaction hash₀ commit₀ notify₀ =>
          by_cases hc : commit = commit₀
          · subst hc
            have hkey : tx.hash ≠ hash₀ := by
              intro hk
              exact hne ⟨by simp [subCommit], by simp [entityMatches, hk]⟩
            cases commit <;>
              cases hlook : alistLookup tx.hash st.tx_verify_subs <;>
              cases hlook' : alistLookup tx.hash st.tx_commit_subs <;>
              simp only [inBucket, bucketLookup, dispatchTx,
                Bool.false_eq_true, ite_false, ite_true, hlook, hlook'] at h ⊢ <;>
              rwa [alistLookup_alistErase_ne (Ne.symm hkey)]
          · have : commit = !commit₀ := by
              cases commit <;> cases commit₀ <;> simp_all
            subst this
            cases commit₀ <;>
              cases hlook : alistLookup tx.hash st.tx_verify_subs <;>
              cases hlook' : alistLookup tx.hash st.tx_commit_subs <;>
              simp only [inBucket, bucketLookup, dispatchTx, Bool.not_true,
                Bool.not_false, Bool.false_eq_true, ite_false, ite_true,
                hlook, hlook'] at h ⊢ <;>
              exact h
      | PriorityOp sid₀ commit₀ notify₀ =>
          cases commit <;>
            cases hlook : alistLookup tx.hash st.tx_verify_subs <;>
            cases hlook' : alistLookup tx.hash st.tx_commit_subs <;>
            simp only [inBucket, bucketLookup, dispatchTx, Bool.false_eq_true,
              ite_false, ite_true, hlook, hlook'] at h ⊢ <;>
            exact h
  | PriorityOp prior_op =>
      cases sub with
      | Transaction hash₀ commit₀ notify₀ =>
          cases commit <;>
            cases hlook : alistLookup prior_op.serial_id st.prior_op_verify_subs <;>
            cases hlook' : alistLookup prior_op.serial_id st.prior_op_commit_subs <;>
            simp only [inBucket, bucketLookup, dispatchTx, Bool.false_eq_true,
              ite_false, ite_true, hlook, hlook'] at h ⊢ <;>
            exact h
      | PriorityOp sid₀ commit₀ notify₀ =>
          by_cases hc : commit = commit₀
          · subst hc
            have hkey : prior_op.serial_id ≠ sid₀ := by
              intro hk
              exact hne ⟨by simp [subCommit], by simp [entityMatches, hk]⟩
            cases commit <;>
              cases hlook : alistLookup prior_op.serial_id st.prior_op_verify_subs <;>
              cases hlook' : alistLookup prior_op.serial_id st.prior_op_commit_subs <;>
              simp only [inBucket, bucketLookup, dispatchTx,
                Bool.false_eq_true, ite_false, ite_true, hlook, hlook'] at h ⊢ <;>
              rwa [alistLookup_alistErase_ne (Ne.symm hkey)]
          · have : commit = !commit₀ := by
              cases commit <;> cases commit₀ <;> simp_all
            subst this
            cases commit₀ <;>
              cases hlook : alistLookup prior_op.serial_id st.prior_op_verify_subs <;>
              cases hlook' : alistLookup prior_op.serial_id st.prior_op_commit_subs <;>
              simp only [inBucket, bucketLookup, dispatchTx, Bool.not_true,
                Bool.not_false, Bool.false_eq_true, ite_false, ite_true,
                hlook, hlook'] at h ⊢ <;>
              exact h

theorem inBucket_dispatchLoop (sub : EventSubscribe) (w : WaiterId)
    (commit : Bool) (op : Operation) (txs : List ExecutedOperations)
    (st : OperationNotifier)
    (hne : ∀ e ∈ txs, ¬(commit = subCommit sub ∧ entityMatches e sub = true))
    (h : inBucket sub w st) :
    inBucket sub w (dispatchLoop commit op st txs).1 := by
  induction txs generalizing st with
  | nil => simpa [dispatchLoop] using h
  | cons e rest ih =>
      simp only [dispatchLoop]
      exact ih (dispatchTx commit op st e).1
        (fun e' he' => hne e' (List.mem_cons_of_mem _ he'))
        (inBucket_dispatchTx sub w commit op st e
          (hne e (List.mem_cons_self _ _)) h)

theorem inBucket_handle_new_block (sub : EventSubscribe) (w : WaiterId)
    (op : Operation) (st : OperationNotifier) (hnc : ¬ confirms op sub)
    (h : inBucket sub w st) :
    inBucket sub w (handle_new_block op st).1 := by
  simp only [handle_new_block]
  refine inBucket_dispatchLoop sub w (opCommit op) op _ st ?_ h
  intro e he ⟨hcm, hm⟩
  exact hnc ⟨hcm, e, he, hm⟩

theorem inBucket_handle_input (sub : EventSubscribe) (w : WaiterId)
    (db_pool : ConnectionPool) (input : BlockNotifierInput)
    (st : OperationNotifier)
    (hnc : ∀ op, input = .NewOperationCommited op → ¬ confirms op sub)
    (h : inBucket sub w st) :
    inBucket sub w (handle_input db_pool input st).1 := by
  cases input with
  | EventSubscription sub' =>
      exact inBucket_handle_subscription sub sub' w db_pool st h
  | NewOperationCommited op =>
      exact inBucket_handle_new_block sub w op st (hnc op rfl) h

theorem inBucket_run (sub : EventSubscribe) (w : WaiterId)
    (trace : List (ConnectionPool × BlockNotifierInput))
    (st : OperationNotifier)
    (hnc : ∀ p ∈ trace, ∀ op, p.2 = BlockNotifierInput.NewOperationCommited op →
      ¬ confirms op sub)
    (h : inBucket sub w st) :
    inBucket sub w (run st trace).1 := by
  induction trace generalizing st with
  | nil => simpa [run] using h
  | cons hd rest ih =>
      obtain ⟨db_pool, input⟩ := hd
      simp only [run]
      exact ih (handle_input db_pool input st).1
        (fun p hp => hnc p (List.mem_cons_of_mem _ hp))
        (inBucket_handle_input sub w db_pool input st
          (fun op hop => hnc (db_pool, input) (List.mem_cons_self _ _) op hop) h)

/-! A confirming dispatch delivers to every parked waiter of the confirmed
entity. -/

theorem dispatchTx_delivers (sub : EventSubscribe) (w : WaiterId)
    (op : Operation) (st : OperationNotifier) (e : ExecutedOperations)
    (hm : entityMatches e sub = true) (hin : inBucket sub w st) :
    1 ≤ notifCount w (dispatchTx (subCommit sub) op st e).2 := by
  cases e with
  | Tx tx =>
      cases sub with
      | Transaction hash₀ commit₀ notify₀ =>
          have hk : tx.hash = hash₀ := by simpa [entityMatches] using hm
          subst hk
          cases commit₀
          · simp only [inBucket, bucketLookup, subCommit, Bool.false_eq_true,
              ite_false] at hin ⊢
            cases hlook : alistLookup tx.hash st.tx_verify_subs with
            | none => rw [hlook] at hin; simp at hin
            | some channels =>
                rw [hlook, Option.getD_some] at hin
                simp only [dispatchTx, Bool.false_eq_true, ite_false, hlook,
                  notifCount_map_tx]
                exact List.count_pos_iff.2 hin
          · simp only [inBucket, bucketLookup, subCommit, ite_true] at hin ⊢
            cases hlook : alistLookup tx.hash st.tx_commit_subs with
            | none => rw [hlook] at hin; simp at hin
            | some channels =>
                rw [hlook, Option.getD_some] at hin
                simp only [dispatchTx, ite_true, hlook, notifCount_map_tx]
                exact List.count_pos_iff.2 hin
      | PriorityOp sid₀ commit₀ notify₀ => simp [entityMatches] at hm
  | PriorityOp prior_op =>
      cases sub with
      | Transaction hash₀ commit₀ notify₀ => simp [entityMatches] at hm
      | PriorityOp sid₀ commit₀ notify₀ =>
          have hk : prior_op.serial_id = sid₀ := by
            simpa [entityMatches] using hm
          subst hk
          cases commit₀
          · simp only [inBucket, bucketLookup, subCommit, Bool.false_eq_true,
              ite_false] at hin ⊢
            cases hlook : alistLookup prior_op.serial_id st.prior_op_verify_subs with
            | none => rw [hlook] at hin; simp at hin
            | some channels =>
                rw [hlook, Option.getD_some] at hin
                simp only [dispatchTx, Bool.false_eq_true, ite_false, hlook,
                  notifCount_map_priorOp]
                exact List.count_pos_iff.2 hin
          · simp only [inBucket, bucketLookup, subCommit, ite_true] at hin ⊢
            cases hlook : alistLookup prior_op.serial_id st.prior_op_commit_subs with
            | none => rw [hlook] at hin; simp at hin
            | some channels =>
                rw [hlook, Option.getD_some] at hin
                simp only [dispatchTx, ite_true, hlook, notifCount_map_priorOp]
                exact List.count_pos_iff.2 hin

theorem dispatchLoop_delivers (sub : EventSubscribe) (w : WaiterId)
    (op : Operation) (txs : List ExecutedOperations) (st : OperationNotifier)
    (hmem : ∃ e ∈ txs, entityMatches e sub = true) (hin : inBucket sub w st) :
    1 ≤ notifCount w (dispatchLoop (subCommit sub) op st txs).2 := by
  induction txs generalizing st with
  | nil => simp at hmem
  | cons e rest ih =>
      simp only [dispatchLoop, notifCount_append]
      by_cases hm : entityMatches e sub = true
      · have := dispatchTx_delivers sub w op st e hm hin
        omega
      · obtain ⟨e', he', hm'⟩ := hmem
        rcases List.mem_cons.1 he' with rfl | he''
        · exact absurd hm' hm
        · have hpres := inBucket_dispatchTx sub w (subCommit sub) op st e
            (fun hc => hm hc.2) hin
          have := ih (dispatchTx (subCommit sub) op st e).1 ⟨e', he'', hm'⟩ hpres
          omega

theorem handle_new_block_delivers (sub : EventSubscribe) (w : WaiterId)
    (op : Operation) (st : OperationNotifier) (hc : confirms op sub)
    (hin : inBucket sub w st) :
    1 ≤ notifCount w (handle_new_block op st).2 := by
  obtain ⟨hcm, e, he, hm⟩ := hc
  simp only [handle_new_block, hcm]
  exact dispatchLoop_delivers sub w op op.block.block_transactions st
    ⟨e, he, hm⟩ hin

/-! Decomposition of `run` into steps. -/

theorem run_cons_snd (st : OperationNotifier) (p : ConnectionPool)
    (i : BlockNotifierInput) (rest : List (ConnectionPool × BlockNotifierInput)) :
    (run st ((p, i) :: rest)).2 =
      (handle_input p i st).2 ++ (run (handle_input p i st).1 rest).2 := by
  simp [run]

theorem run_cons_fst (st : OperationNotifier) (p : ConnectionPool)
    (i : BlockNotifierInput) (rest : List (ConnectionPool × BlockNotifierInput)) :
    (run st ((p, i) :: rest)).1 = (run (handle_input p i st).1 rest).1 := by
  simp [run]

theorem run_append_snd (st : OperationNotifier)
    (xs ys : List (ConnectionPool × BlockNotifierInput)) :
    (run st (xs ++ ys)).2 = (run st xs).2 ++ (run (run st xs).1 ys).2 := by
  rw [run_append]

theorem run_append_fst (st : OperationNotifier)
    (xs ys : List (ConnectionPool × BlockNotifierInput)) :
    (run st (xs ++ ys)).1 = (run (run st xs).1 ys).1 := by
  rw [run_append]

theorem subCount_append (w : WaiterId)
    (xs ys : List (ConnectionPool × BlockNotifierInput)) :
    subCount w (xs ++ ys) = subCount w xs + subCount w ys := by
  induction xs with
  | nil => simp [subCount]
  | cons hd rest ih =>
      obtain ⟨p, i⟩ := hd
      cases i
      · simp [subCount, ih]
      · simp [subCount, ih]
        omega

/-! After a confirming dispatch the drained key is absent from its map. -/

theorem bucketLookup_dispatchTx_none (sub : EventSubscribe) (commit : Bool)
    (op : Operation) (st : OperationNotifier) (e : ExecutedOperations)
    (h : bucketLookup sub st = none) :
    bucketLookup sub (dispatchTx commit op st e).1 = none := by
  cases e with
  | Tx tx =>
      cases sub with
      | Transaction hash₀ commit₀ notify₀ =>
          cases commit <;> cases commit₀ <;>
            cases hlook : alistLookup tx.hash st.tx_verify_subs <;>
            cases hlook' : alistLookup tx.hash st.tx_commit_subs <;>
            simp only [bucketLookup, dispatchTx, Bool.false_eq_true,
              ite_false, ite_true, hlook, hlook'] at h ⊢ <;>
            first
              | exact h
              | exact alistLookup_alistErase_none _ _ h
      | PriorityOp sid₀ commit₀ notify₀ =>
          cases commit <;> cases commit₀ <;>
            cases hlook : alistLookup tx.hash st.tx_verify_subs <;>
            cases hlook' : alistLookup tx.hash st.tx_commit_subs <;>
            simp only [bucketLookup, dispatchTx, Bool.false_eq_true,
              ite_false, ite_true, hlook, hlook'] at h ⊢ <;>
            exact h
  | PriorityOp prior_op =>
      cases sub with
      | Transaction hash₀ commit₀ notify₀ =>
          cases commit <;> cases commit₀ <;>
            cases hlook : alistLookup prior_op.serial_id st.prior_op_verify_subs <;>
            cases hlook' : alistLookup prior_op.serial_id st.prior_op_commit_subs <;>
            simp only [bucketLookup, dispatchTx, Bool.false_eq_true,
              ite_false, ite_true, hlook, hlook'] at h ⊢ <;>
            exact h
      | PriorityOp sid₀ commit₀ notify₀ =>
          cases commit <;> cases commit₀ <;>
            cases hlook : alistLookup prior_op.serial_id st.prior_op_verify_subs <;>
            cases hlook' : alistLookup prior_op.serial_id st.prior_op_commit_subs <;>
            simp only [bucketLookup, dispatchTx, Bool.false_eq_true,
              ite_false, ite_true, hlook, hlook'] at h ⊢ <;>
            first
              | exact h
              | exact alistLookup_alistErase_none _ _ h

theorem bucketLookup_dispatchTx_matching (sub : EventSubscribe)
    (op : Operation) (st : OperationNotifier) (e : ExecutedOperations)
    (hwf : WF st) (hm : entityMatches e sub = true) :
    bucketLookup sub (dispatchTx (subCommit sub) op st e).1 = none := by
  obtain ⟨h₁, h₂, h₃, h₄⟩ := hwf
  cases e with
  | Tx tx =>
      cases sub with
      | Transaction hash₀ commit₀ notify₀ =>
          have hk : tx.hash = hash₀ := by simpa [entityMatches] using hm
          subst hk
          cases commit₀
          · cases hlook : alistLookup tx.hash st.tx_verify_subs <;>
              simp only [bucketLookup, dispatchTx, subCommit,
                Bool.false_eq_true, ite_false, hlook] <;>
              exact alistLookup_alistErase_self h₃.1 tx.hash
          · cases hlook : alistLookup tx.hash st.tx_commit_subs <;>
              simp only [bucketLookup, dispatchTx, subCommit, ite_true, hlook] <;>
              exact alistLookup_alistErase_self h₁.1 tx.hash
      | PriorityOp sid₀ commit₀ notify₀ => simp [entityMatches] at hm
  | PriorityOp prior_op =>
      cases sub with
      | Transaction hash₀ commit₀ notify₀ => simp [entityMatches] at hm
      | PriorityOp sid₀ commit₀ notify₀ =>
          have hk : prior_op.serial_id = sid₀ := by
            simpa [entityMatches] using hm
          subst hk
          cases commit₀
          · cases hlook : alistLookup prior_op.serial_id st.prior_op_verify_subs <;>
              simp only [bucketLookup, dispatchTx, subCommit,
                Bool.false_eq_true, ite_false, hlook] <;>
              exact alistLookup_alistErase_self h₄.1 prior_op.serial_id
          · cases hlook : alistLookup prior_op.serial_id st.prior_op_commit_subs <;>
              simp only [bucketLookup, dispatchTx, subCommit, ite_true, hlook] <;>
              exact alistLookup_alistErase_self h₂.1 prior_op.serial_id

theorem bucketLookup_dispatchLoop_none_mono (sub : EventSubscribe)
    (commit : Bool) (op : Operation) (txs : List ExecutedOperations)
    (st : OperationNotifier) (h : bucketLookup sub st = none) :
    bucketLookup sub (dispatchLoop commit op st txs).1 = none := by
  induction txs generalizing st with
  | nil => simpa [dispatchLoop] using h
  | cons e rest ih =>
      simp only [dispatchLoop]
      exact ih (dispatchTx commit op st e).1
        (bucketLookup_dispatchTx_none sub commit op st e h)

theorem bucketLookup_dispatchLoop_drained (sub : EventSubscribe)
    (op : Operation) (txs : List ExecutedOperations) (st : OperationNotifier)
    (hwf : WF st) (hmem : ∃ e ∈ txs, entityMatches e sub = true) :
    bucketLookup sub (dispatchLoop (subCommit sub) op st txs).1 = none := by
  induction txs generalizing st with
  | nil => simp at hmem
  | cons e rest ih =>
      simp only [dispatchLoop]
      by_cases hm : entityMatches e sub = true
      · exact bucketLookup_dispatchLoop_none_mono sub (subCommit sub) op rest _
          (bucketLookup_dispatchTx_matching sub op st e hwf hm)
      · obtain ⟨e', he', hm'⟩ := hmem
        rcases List.mem_cons.1 he' with rfl | he''
        · exact absurd hm' hm
        · exact ih (dispatchTx (subCommit sub) op st e).1
            (WF_dispatchTx hwf (subCommit sub) op e) ⟨e', he'', hm'⟩

theorem handle_new_block_drains (sub : EventSubscribe) (op : Operation)
    (st : OperationNotifier) (hwf : WF st) (hc : confirms op sub) :
    bucketLookup sub (handle_new_block op st).1 = none := by
  obtain ⟨hcm, e, he, hm⟩ := hc
  simp only [handle_new_block, hcm]
  exact bucketLookup_dispatchLoop_drained sub op op.block.block_transactions st
    hwf ⟨e, he, hm⟩

/-! A registration against a full bucket changes nothing. -/

theorem registerStep_full_lookup [DecidableEq κ] (k k₀ : κ) (notify : WaiterId)
    (m : List (κ × List WaiterId))
    (hfull : ¬ ((alistLookup k m).getD []).length < MAX_LISTENERS_PER_ENTITY) :
    alistLookup k₀ (alistInsert k
      (if ((alistLookup k m).getD []).length < MAX_LISTENERS_PER_ENTITY
       then (alistLookup k m).getD [] ++ [notify]
       else (alistLookup k m).getD [])
      (alistErase k m)) = alistLookup k₀ m := by
  obtain ⟨l, hl⟩ : ∃ l, alistLookup k m = some l := by
    cases h : alistLookup k m with
    | none =>
        exfalso
        apply hfull
        simp [h, MAX_LISTENERS_PER_ENTITY]
    | some l => exact ⟨l, rfl⟩
  rw [alistLookup_alistInsert, if_neg hfull]
  by_cases hk : k₀ = k
  · subst hk
    rw [if_pos rfl, hl, Option.getD_some]
  · rw [if_neg hk, alistLookup_alistErase_ne hk]

theorem registerOf_full (sub : EventSubscribe) (st : OperationNotifier)
    (hfull : ¬ bucketLen sub st < MAX_LISTENERS_PER_ENTITY) :
    sameLookups (registerOf sub st).1 st := by
  cases sub with
  | Transaction hash commit notify =>
      rw [bucketLen, bucketLookup] at hfull
      cases commit
      · simp only [Bool.false_eq_true, ite_false] at hfull
        refine ⟨fun k => rfl, fun k => rfl, fun k => ?_, fun k => rfl⟩
        simpa [registerOf, registerTx] using
          registerStep_full_lookup hash k notify st.tx_verify_subs hfull
      · simp only [ite_true] at hfull
        refine ⟨fun k => ?_, fun k => rfl, fun k => rfl, fun k => rfl⟩
        simpa [registerOf, registerTx] using
          registerStep_full_lookup hash k notify st.tx_commit_subs hfull
  | PriorityOp serial_id commit notify =>
      rw [bucketLen, bucketLookup] at hfull
      cases commit
      · simp only [Bool.false_eq_true, ite_false] at hfull
        refine ⟨fun k => rfl, fun k => rfl, fun k => rfl, fun k => ?_⟩
        simpa [registerOf, registerPriorityOp] using
          registerStep_full_lookup serial_id k notify st.prior_op_verify_subs hfull
      · simp only [ite_true] at hfull
        refine ⟨fun k => rfl, fun k => ?_, fun k => rfl, fun k => rfl⟩
        simpa [registerOf, registerPriorityOp] using
          registerStep_full_lookup serial_id k notify st.prior_op_commit_subs hfull

/-! Shape of every delivered priority-op outcome. -/

theorem priorOpStatusOk_handle_subscription (db_pool : ConnectionPool)
    (sub : EventSubscribe) (st : OperationNotifier) :
    ∀ e ∈ (handle_subscription db_pool sub st).2, PriorOpStatusOk e := by
  cases sub with
  | Transaction hash commit notify =>
      intro e he
      cases hq : txReceiptQuery db_pool hash with
      | none =>
          simp only [handle_subscription, hq, registerTx_snd] at he
          simp at he
      | some receipt =>
          by_cases hc : commit
          · simp only [handle_subscription, hq, hc, ite_true,
              List.mem_singleton] at he
            subst he; trivial
          · by_cases hv : receipt.verified
            · simp only [handle_subscription, hq, if_neg hc, hv, ite_true,
                List.mem_singleton] at he
              subst he; trivial
            · simp only [handle_subscription, hq, if_neg hc, hv,
                Bool.false_eq_true, ite_false, registerTx_snd] at he
              simp at he
  | PriorityOp serial_id commit notify =>
      intro e he
      cases hq : executedPriorityOpQuery db_pool serial_id with
      | none =>
          simp only [handle_subscription, hq, registerPriorityOp_snd] at he
          simp at he
      | some executed_op =>
          by_cases hc : commit
          · simp only [handle_subscription, hq, hc, ite_true,
              List.mem_singleton] at he
            subst he; exact ⟨rfl, by simp⟩
          · cases hbv : blockVerifyQuery db_pool executed_op.block_number with
            | none =>
                simp only [handle_subscription, hq, if_neg hc, hbv,
                  registerPriorityOp_snd] at he
                simp at he
            | some block_verify =>
                by_cases hconf : block_verify.confirmed
                · simp only [handle_subscription, hq, if_neg hc, hbv, hconf,
                    ite_true, List.mem_singleton] at he
                  subst he; exact ⟨rfl, by simp⟩
                · simp only [handle_subscription, hq, if_neg hc, hbv, hconf,
                    Bool.false_eq_true, ite_false, registerPriorityOp_snd] at he
                  simp at he

theorem priorOpStatusOk_dispatchTx (commit : Bool) (op : Operation)
    (st : OperationNotifier) (e : ExecutedOperations) :
    ∀ n ∈ (dispatchTx commit op st e).2, PriorOpStatusOk n := by
  intro n hn
  cases e with
  | Tx tx =>
      cases commit
      · cases hlook : alistLookup tx.hash st.tx_verify_subs with
        | none =>
            simp only [dispatchTx, Bool.false_eq_true, ite_false, hlook] at hn
            simp at hn
        | some channels =>
            simp only [dispatchTx, Bool.false_eq_true, ite_false, hlook] at hn
            obtain ⟨ch, _, rfl⟩ := List.mem_map.1 hn
            trivial
      · cases hlook : alistLookup tx.hash st.tx_commit_subs with
        | none =>
            simp only [dispatchTx, ite_true, hlook] at hn
            simp at hn
        | some channels =>
            simp only [dispatchTx, ite_true, hlook] at hn
            obtain ⟨ch, _, rfl⟩ := List.mem_map.1 hn
            trivial
  | PriorityOp prior_op =>
      cases commit
      · cases hlook : alistLookup prior_op.serial_id st.prior_op_verify_subs with
        | none =>
            simp only [dispatchTx, Bool.false_eq_true, ite_false, hlook] at hn
            simp at hn
        | some channels =>
            simp only [dispatchTx, Bool.false_eq_true, ite_false, hlook] at hn
            obtain ⟨ch, _, rfl⟩ := List.mem_map.1 hn
            exact ⟨rfl, by simp⟩
      · cases hlook : alistLookup prior_op.serial_id st.prior_op_commit_subs with
        | none =>
            simp only [dispatchTx, ite_true, hlook] at hn
            simp at hn
        | some channels =>
            simp only [dispatchTx, ite_true, hlook] at hn
            obtain ⟨ch, _, rfl⟩ := List.mem_map.1 hn
            exact ⟨rfl, by simp⟩

theorem priorOpStatusOk_dispatchLoop (commit : Bool) (op : Operation)
    (txs : List ExecutedOperations) (st : OperationNotifier) :
    ∀ n ∈ (dispatchLoop commit op st txs).2, PriorOpStatusOk n := by
  induction txs generalizing st with
  | nil => simp [dispatchLoop]
  | cons e rest ih =>
      intro n hn
      simp only [dispatchLoop, List.mem_append] at hn
      rcases hn with hn | hn
      · exact priorOpStatusOk_dispatchTx commit op st e n hn
      · exact ih (dispatchTx commit op st e).1 n hn

theorem priorOpStatusOk_run (st : OperationNotifier)
    (trace : List (ConnectionPool × BlockNotifierInput)) :
    ∀ n ∈ (run st trace).2, PriorOpStatusOk n := by
  induction trace generalizing st with
  | nil => simp [run]
  | cons hd rest ih =>
      obtain ⟨db_pool, input⟩ := hd
      intro n hn
      rw [run_cons_snd] at hn
      rcases List.mem_append.1 hn with hn | hn
      · cases input with
        | EventSubscription sub =>
            exact priorOpStatusOk_handle_subscription db_pool sub st n hn
        | NewOperationCommited op =>
            simp only [handle_input, handle_new_block] at hn
            exact priorOpStatusOk_dispatchLoop (opCommit op) op
              op.block.block_transactions st n hn
      · exact ih (handle_input db_pool input st).1 n hn

/-! Evaluation of the saturation run: 4097 identical subscriptions, then a
confirming dispatch. -/

theorem ceStep (i : Nat) (st : OperationNotifier) :
    handle_input failedPool
      (.EventSubscription (.Transaction ceHash true i)) st =
      registerTx true ceHash i st := rfl

theorem ceTrace_succ (n : Nat) : ceTrace (n + 1) = ceTrace n ++ [ceSub n] := by
  simp [ceTrace, List.range_succ]

theorem ceRegister_bucket (n : Nat) :
    (registerTx true ceHash n (ceNotifier n)).1 = ceNotifier (n + 1) := by
  have hlook : alistLookup ceHash (ceNotifier n).tx_commit_subs =
      some (List.range (min n 4096)) := by
    simp [ceNotifier, alistLookup]
  have herase : EventNotify.alistErase ceHash (ceNotifier n).tx_commit_subs = [] := by
    simp [ceNotifier, alistErase]
  have hbucket :
      (if (List.range (min n 4096)).length < MAX_LISTENERS_PER_ENTITY
       then List.range (min n 4096) ++ [n] else List.range (min n 4096)) =
        List.range (min (n + 1) 4096) := by
    rw [List.length_range, MAX_LISTENERS_PER_ENTITY]
    by_cases hlt : n < 4096
    · rw [if_pos (by rw [min_eq_left (by omega : n ≤ 4096)]; omega),
        min_eq_left (by omega : n ≤ 4096),
        min_eq_left (by omega : n + 1 ≤ 4096), ← List.range_succ]
    · rw [min_eq_right (by omega : 4096 ≤ n),
        min_eq_right (by omega : 4096 ≤ n + 1),
        if_neg (by omega : ¬ (4096 < 4096))]
  simp only [registerTx, ite_true, hlook, herase, Option.getD_some]
  rw [hbucket]
  rfl

theorem ceNotifier_step (n : Nat) :
    run (ceNotifier n) [ceSub n] = (ceNotifier (n + 1), []) := by
  have h1 : run (ceNotifier n) [ceSub n] =
      ((registerTx true ceHash n (ceNotifier n)).1,
        (registerTx true ceHash n (ceNotifier n)).2 ++ []) := rfl
  rw [h1, registerTx_snd, ceRegister_bucket]
  rfl

theorem ceState (n : Nat) (h1 : 1 ≤ n) :
    run initialNotifier (ceTrace n) = (ceNotifier n, []) := by
  induction n with
  | zero => omega
  | succ n ih =>
      by_cases hn : n = 0
      · subst hn
        decide
      · have hn1 : 1 ≤ n := by omega
        rw [ceTrace_succ, run_append, ih hn1]
        dsimp only
        rw [ceNotifier_step]
        rfl

theorem ceSubCount (w n : Nat) :
    subCount w (ceTrace n) = if w < n then 1 else 0 := by
  induction n with
  | zero => simp [ceTrace, subCount]
  | succ n ih =>
      rw [ceTrace_succ, subCount_append, ih]
      have hone : subCount w [ceSub n] = if n = w then 1 else 0 := by
        simp [subCount, ceSub, waiterOf]
      rw [hone]
      by_cases hw : w < n
      · rw [if_pos hw, if_neg (by omega : ¬ n = w), if_pos (by omega : w < n + 1)]
      · by_cases he : n = w
        · subst he
          rw [if_neg hw, if_pos rfl, if_pos (by omega : n < n + 1)]
        · rw [if_neg hw, if_neg he, if_neg (by omega : ¬ w < n + 1)]

theorem ceRun :
    (run initialNotifier ceInput).2 =
      (List.range 4096).map fun i => Notification.tx i ceReceipt := by
  rw [ceInput, run_append_snd, ceState 4097 (by omega)]
  dsimp only
  rw [List.nil_append]
  have h1 : (run (ceNotifier 4097) [ceDispatch]).2 =
      (handle_new_block ceBlock (ceNotifier 4097)).2 ++ [] := rfl
  rw [h1, List.append_nil]
  have h2 : (handle_new_block ceBlock (ceNotifier 4097)).2 =
      (dispatchTx true ceBlock (ceNotifier 4097)
        (.Tx ⟨ceHash, true, none⟩)).2 ++ [] := rfl
  rw [h2, List.append_nil]
  have hlook : alistLookup ceHash (ceNotifier 4097).tx_commit_subs =
      some (List.range 4096) := by
    have : min 4097 4096 = 4096 := by omega
    simp [ceNotifier, alistLookup, this]
  simp only [dispatchTx, ite_true, hlook]
  rfl

/-! The claims. -/

/-- C2: At-most-once delivery. For any waiter `w`, across any interleaving of
subscriptions and dispatches processed from the fresh notifier, at most one
delivery event targets `w`, and a delivered waiter is not still held in any
bucket — so a waiter resolved immediately is never also registered, and a
drained waiter is removed and never delivered to by a second dispatch. The
hypothesis states that at most one subscription input carries the handle `w`,
which the linearity of `oneshot::Sender` guarantees in the source. -/
theorem claim2_at_most_once
    (trace : List (ConnectionPool × BlockNotifierInput)) (w : WaiterId)
    (hlin : subCount w trace ≤ 1) :
    notifCount w (run initialNotifier trace).2 +
      stateOcc w (run initialNotifier trace).1 ≤ 1 := by
  have h := run_occ w trace initialNotifier
  rw [stateOcc_initial] at h
  omega

theorem claim2_witness :
    subCount 7 c2trace ≤ 1 ∧
    notifCount 7 (run initialNotifier c2trace).2 +
      stateOcc 7 (run initialNotifier c2trace).1 ≤ 1 :=
  ⟨by decide, claim2_at_most_once c2trace 7 (by decide)⟩

/-- C4: The immediate-resolution store lookup for a priority-op subscription
is keyed by `serial_id as u32`, i.e. by `serial_id % 2^32`, not by the full
64-bit serial id: the subscriptions with serial ids `2^32` and `0` consult
the same store record, and a store holding an executed operation only under
`u32` key 0 answers the subscription for serial id `2^32` with that record's
status. This exhibits the truncation the claim (and the spec's 64-bit
identity model) rule out. -/
theorem claim4_truncated_lookup :
    executedPriorityOpQuery c4pool 4294967296 =
        executedPriorityOpQuery c4pool 0 ∧
    executedPriorityOpQuery c4pool 4294967296 = some { block_number := 5 } ∧
    handle_subscription c4pool (.PriorityOp 4294967296 true 77)
        initialNotifier =
      (initialNotifier, [.priorOp 77 { executed := true, block := some 5 }]) ∧
    handle_subscription c4pool (.PriorityOp 0 true 88) initialNotifier =
      (initialNotifier, [.priorOp 88 { executed := true, block := some 5 }]) :=
  ⟨rfl, rfl, rfl, rfl⟩

/-- C8: Scenario A and D. With no store record for the 32-byte hash
`c8hash`, two `Committed` subscriptions for it are parked; a Commit dispatch
for block 10 containing a successful transaction with that hash delivers to
both waiters, in bucket order, the identical outcome
`{tx_hash := lowercase hex of the hash, block_number := 10, success := true,
fail_reason := none, verified := false}`. -/
theorem claim8_scenario_broadcast :
    (run initialNotifier c8trace).2 =
      [.tx 100 c8receipt, .tx 200 c8receipt] ∧
    c8receipt.tx_hash =
      "000102030405060708090a0b0c0d0e0f101112131415161718191a1b1c1d1e1f" ∧
    c8receipt.tx_hash = hexEncode c8hash ∧
    c8receipt.block_number = 10 ∧ c8receipt.success = true ∧
    c8receipt.fail_reason = none ∧ c8receipt.verified = false := by
  refine ⟨by decide, by decide, rfl, rfl, rfl, rfl, rfl⟩

/-- C9: Termination of the merged event-loop input. Settled against the
spec-modelled `mergeLoop` (the `Stream::select`/`finish` plumbing is outside
this repository's sources): once either the new-operation feed or the
new-subscription feed has ended, the merged sequence ends — no input of the
other feed is processed by the notifier after that, under every interleaving
schedule. -/
theorem claim9_feed_termination :
    (∀ (bs : List Operation) (ss : List EventSubscribe) (sched : List Bool),
      bs = [] ∨ ss = [] → mergeLoop bs ss sched = []) ∧
    (∀ (db_pool : ConnectionPool) (st : OperationNotifier)
        (bs : List Operation) (ss : List EventSubscribe) (sched : List Bool),
      bs = [] ∨ ss = [] →
      run st ((mergeLoop bs ss sched).map fun i => (db_pool, i)) = (st, [])) := by
  constructor
  · rintro bs ss sched (rfl | rfl)
    · cases ss <;> cases sched <;> rfl
    · cases bs <;> cases sched <;> rfl
  · rintro db_pool st bs ss sched (rfl | rfl)
    · cases ss <;> cases sched <;> rfl
    · cases bs <;> cases sched <;> rfl

theorem claim9_witness :
    ([] = ([] : List Operation) ∨ [ceSubLast] = ([] : List EventSubscribe)) ∧
    mergeLoop [] [ceSubLast] [false] = [] ∧
    run initialNotifier
      ((mergeLoop [ceBlock] [] [true, false]).map fun i => (failedPool, i)) =
      (initialNotifier, []) :=
  ⟨Or.inl rfl,
   claim9_feed_termination.1 [] [ceSubLast] [false] (Or.inl rfl),
   claim9_feed_termination.2 failedPool initialNotifier [ceBlock] [] [true, false]
     (Or.inr rfl)⟩

/-- C10: Every priority-op outcome the notifier delivers — immediately at
subscription time or by a later dispatch — has `executed = true` and a
present block number, although `PriorityOpStatus` permits `executed = false`
and `block = none`. -/
theorem claim10_priority_outcome_shape (st : OperationNotifier)
    (trace : List (ConnectionPool × BlockNotifierInput)) (w : WaiterId)
    (s : PriorityOpStatus)
    (hmem : Notification.priorOp w s ∈ (run st trace).2) :
    s.executed = true ∧ s.block ≠ none :=
  priorOpStatusOk_run st trace _ hmem

theorem claim10_witness :
    Notification.priorOp 5 { executed := true, block := some 3 } ∈
      (run initialNotifier c10trace).2 ∧
    ({ executed := true, block := some 3 } : PriorityOpStatus).executed = true ∧
    ({ executed := true, block := some 3 } : PriorityOpStatus).block ≠ none :=
  ⟨by decide,
   (claim10_priority_outcome_shape initialNotifier c10trace 5 _ (by decide)).1,
   (claim10_priority_outcome_shape initialNotifier c10trace 5 _ (by decide)).2⟩

/-- C7: A store failure during immediate resolution — connection acquisition
(`access_storage().ok()`) or the resolution query (`.ok()` on `tx_receipt` /
`get_executed_priority_op`) — is swallowed: the resolver returns no error (its
output carries no delivery at all), behaves exactly like a pool whose store
has no record for the entity, and falls through to the registration code. -/
theorem claim7_store_failure_swallowed (db_pool : ConnectionPool)
    (sub : EventSubscribe) (st : OperationNotifier)
    (hfail : storeFails db_pool sub) :
    handle_subscription db_pool sub st = registerOf sub st ∧
    handle_subscription emptyPool sub st = registerOf sub st ∧
    (handle_subscription db_pool sub st).2 = [] := by
  cases sub with
  | Transaction hash commit notify =>
      have hquery : txReceiptQuery db_pool hash = none := by
        rcases hfail with hnone | hq
        · simp [txReceiptQuery, hnone]
        · cases haccess : db_pool.access_storage with
          | none => simp [txReceiptQuery, haccess]
          | some s => simp [txReceiptQuery, haccess, hq s haccess]
      refine ⟨?_, rfl, ?_⟩
      · simp [handle_subscription, hquery, registerOf]
      · simp [handle_subscription, hquery, registerTx_snd]
  | PriorityOp serial_id commit notify =>
      have hquery : executedPriorityOpQuery db_pool serial_id = none := by
        rcases hfail with hnone | hq
        · simp [executedPriorityOpQuery, hnone]
        · cases haccess : db_pool.access_storage with
          | none => simp [executedPriorityOpQuery, haccess]
          | some s => simp [executedPriorityOpQuery, haccess, hq s haccess]
      refine ⟨?_, rfl, ?_⟩
      · simp [handle_subscription, hquery, registerOf]
      · simp [handle_subscription, hquery, registerPriorityOp_snd]

theorem claim7_witness :
    storeFails failedPool c7sub ∧ storeFails errorPool c7sub ∧
    handle_subscription failedPool c7sub initialNotifier =
      registerOf c7sub initialNotifier ∧
    handle_subscription errorPool c7sub initialNotifier =
      registerOf c7sub initialNotifier ∧
    handle_subscription emptyPool c7sub initialNotifier =
      registerOf c7sub initialNotifier ∧
    (handle_subscription failedPool c7sub initialNotifier).2 = [] := by
  have hfailA : storeFails failedPool c7sub := Or.inl rfl
  have hfailB : storeFails errorPool c7sub :=
    Or.inr fun s hs => by cases hs; rfl
  exact ⟨hfailA, hfailB,
    (claim7_store_failure_swallowed failedPool c7sub initialNotifier hfailA).1,
    (claim7_store_failure_swallowed errorPool c7sub initialNotifier hfailB).1,
    (claim7_store_failure_swallowed failedPool c7sub initialNotifier hfailA).2.1,
    (claim7_store_failure_swallowed failedPool c7sub initialNotifier hfailA).2.2⟩

/-- C3: Level correctness of immediate resolution, given that the store
lookup returns a status. A `Committed` transaction subscription is answered
immediately with the receipt, the registry untouched; a `Verified` one is
answered immediately exactly when the receipt's `verified` flag is true, and
otherwise falls through to the registration code with nothing delivered. A
`Committed` priority-op subscription is answered immediately from the
record; a `Verified` one is answered immediately exactly when the verify
action loaded for its execution block exists and is confirmed, and otherwise
falls through to registration with nothing delivered. -/
theorem claim3_level_correctness :
    (∀ (db_pool : ConnectionPool) (st : OperationNotifier) (hash : TxHash)
        (notify : WaiterId) (receipt : TxReceiptResponse),
      txReceiptQuery db_pool hash = some receipt →
      handle_subscription db_pool (.Transaction hash true notify) st =
        (st, [.tx notify receipt])) ∧
    (∀ (db_pool : ConnectionPool) (st : OperationNotifier) (hash : TxHash)
        (notify : WaiterId) (receipt : TxReceiptResponse),
      txReceiptQuery db_pool hash = some receipt →
      (receipt.verified = true →
        handle_subscription db_pool (.Transaction hash false notify) st =
          (st, [.tx notify receipt])) ∧
      (receipt.verified = false →
        handle_subscription db_pool (.Transaction hash false notify) st =
          registerTx false hash notify st ∧
        (handle_subscription db_pool (.Transaction hash false notify) st).2 =
          [])) ∧
    (∀ (db_pool : ConnectionPool) (st : OperationNotifier) (serial_id : Nat)
        (notify : WaiterId) (executed_op : ExecutedPriorityOpRecord),
      executedPriorityOpQuery db_pool serial_id = some executed_op →
      handle_subscription db_pool (.PriorityOp serial_id true notify) st =
        (st, [.priorOp notify
          { executed := true, block := some executed_op.block_number }])) ∧
    (∀ (db_pool : ConnectionPool) (st : OperationNotifier) (serial_id : Nat)
        (notify : WaiterId) (executed_op : ExecutedPriorityOpRecord),
      executedPriorityOpQuery db_pool serial_id = some executed_op →
      ((∃ block_verify,
          blockVerifyQuery db_pool executed_op.block_number =
            some block_verify ∧ block_verify.confirmed = true) →
        handle_subscription db_pool (.PriorityOp serial_id false notify) st =
          (st, [.priorOp notify
            { executed := true, block := some executed_op.block_number }])) ∧
      (¬(∃ block_verify,
          blockVerifyQuery db_pool executed_op.block_number =
            some block_verify ∧ block_verify.confirmed = true) →
        handle_subscription db_pool (.PriorityOp serial_id false notify) st =
          registerPriorityOp false serial_id notify st ∧
        (handle_subscription db_pool (.PriorityOp serial_id false notify) st).2 =
          [])) := by
  refine ⟨?_, ?_, ?_, ?_⟩
  · intro db_pool st hash notify receipt hq
    simp [handle_subscription, hq]
  · intro db_pool st hash notify receipt hq
    constructor
    · intro hv
      simp [handle_subscription, hq, hv]
    · intro hv
      constructor
      · simp [handle_subscription, hq, hv]
      · simp [handle_subscription, hq, hv, registerTx_snd]
  · intro db_pool st serial_id notify executed_op hq
    simp [handle_subscription, hq]
  · intro db_pool st serial_id notify executed_op hq
    constructor
    · rintro ⟨block_verify, hbv, hconf⟩
      simp [handle_subscription, hq, hbv, hconf]
    · intro hnbv
      cases hbv : blockVerifyQuery db_pool executed_op.block_number with
      | none =>
          constructor
          · simp [handle_subscription, hq, hbv]
          · simp [handle_subscription, hq, hbv, registerPriorityOp_snd]
      | some block_verify =>
          have hconf : block_verify.confirmed = false := by
            by_contra hc
            exact hnbv ⟨block_verify, hbv,
              by revert hc; cases block_verify.confirmed <;> simp⟩
          constructor
          · simp [handle_subscription, hq, hbv, hconf]
          · simp [handle_subscription, hq, hbv, hconf, registerPriorityOp_snd]

theorem claim3_witness :
    txReceiptQuery c3poolV [3] = some c3receiptV ∧
    txReceiptQuery c3poolU [3] = some c3receiptU ∧
    c3receiptV.verified = true ∧ c3receiptU.verified = false ∧
    executedPriorityOpQuery c3poolV 6 = some { block_number := 6 } ∧
    executedPriorityOpQuery c3poolU 6 = some { block_number := 6 } ∧
    handle_subscription c3poolV (.Transaction [3] true 1) initialNotifier =
      (initialNotifier, [.tx 1 c3receiptV]) ∧
    handle_subscription c3poolV (.Transaction [3] false 1) initialNotifier =
      (initialNotifier, [.tx 1 c3receiptV]) ∧
    handle_subscription c3poolU (.Transaction [3] false 1) initialNotifier =
      registerTx false [3] 1 initialNotifier ∧
    handle_subscription c3poolV (.PriorityOp 6 true 2) initialNotifier =
      (initialNotifier,
        [.priorOp 2 { executed := true, block := some 6 }]) ∧
    handle_subscription c3poolV (.PriorityOp 6 false 2) initialNotifier =
      (initialNotifier,
        [.priorOp 2 { executed := true, block := some 6 }]) ∧
    handle_subscription c3poolU (.PriorityOp 6 false 2) initialNotifier =
      registerPriorityOp false 6 2 initialNotifier := by
  have hnbv : ¬(∃ block_verify,
      blockVerifyQuery c3poolU
          (({ block_number := 6 } : ExecutedPriorityOpRecord).block_number) =
        some block_verify ∧ block_verify.confirmed = true) := by
    rintro ⟨block_verify, hbv, hconf⟩
    have : block_verify = { confirmed := false } := by
      have h := hbv.symm
      simpa [blockVerifyQuery, c3poolU] using h
    rw [this] at hconf
    simp at hconf
  refine ⟨rfl, rfl, rfl, rfl, rfl, rfl, ?_, ?_, ?_, ?_, ?_, ?_⟩
  · exact claim3_level_correctness.1 c3poolV initialNotifier [3] 1 c3receiptV rfl
  · exact (claim3_level_correctness.2.1 c3poolV initialNotifier [3] 1 c3receiptV
      rfl).1 rfl
  · exact ((claim3_level_correctness.2.1 c3poolU initialNotifier [3] 1 c3receiptU
      rfl).2 rfl).1
  · exact claim3_level_correctness.2.2.1 c3poolV initialNotifier 6 2
      { block_number := 6 } rfl
  · exact (claim3_level_correctness.2.2.2 c3poolV initialNotifier 6 2
      { block_number := 6 } rfl).1 ⟨{ confirmed := true }, rfl, rfl⟩
  · exact ((claim3_level_correctness.2.2.2 c3poolU initialNotifier 6 2
      { block_number := 6 } rfl).2 hnbv).1

/-- C5: In every reachable registry state, every bucket of each of the four
maps holds at most `MAX_LISTENERS_PER_ENTITY` (4096) waiters; and a
registration attempted against a full bucket (the source guard
`listeners.len() < MAX_LISTENERS_PER_ENTITY` fails) leaves the registry
unchanged under every lookup of every map — the extra waiter is dropped,
no error or delivery is emitted, and the existing bucket is preserved
intact. -/
theorem claim5_bounded_buckets :
    (∀ st, Reachable st →
      (∀ k l, alistLookup k st.tx_commit_subs = some l →
        l.length ≤ MAX_LISTENERS_PER_ENTITY) ∧
      (∀ k l, alistLookup k st.prior_op_commit_subs = some l →
        l.length ≤ MAX_LISTENERS_PER_ENTITY) ∧
      (∀ k l, alistLookup k st.tx_verify_subs = some l →
        l.length ≤ MAX_LISTENERS_PER_ENTITY) ∧
      (∀ k l, alistLookup k st.prior_op_verify_subs = some l →
        l.length ≤ MAX_LISTENERS_PER_ENTITY)) ∧
    (∀ sub st, ¬ bucketLen sub st < MAX_LISTENERS_PER_ENTITY →
      sameLookups (registerOf sub st).1 st ∧ (registerOf sub st).2 = []) := by
  constructor
  · intro st hreach
    obtain ⟨h₁, h₂, h₃, h₄⟩ := WF_of_Reachable hreach
    exact ⟨fun k l hl => (h₁.2 (k, l) (mem_of_alistLookup hl)).1,
      fun k l hl => (h₂.2 (k, l) (mem_of_alistLookup hl)).1,
      fun k l hl => (h₃.2 (k, l) (mem_of_alistLookup hl)).1,
      fun k l hl => (h₄.2 (k, l) (mem_of_alistLookup hl)).1⟩
  · intro sub st hfull
    exact ⟨registerOf_full sub st hfull, registerOf_snd sub st⟩

theorem claim5_witness :
    (Reachable (ceNotifier 1) ∧
      alistLookup ceHash (ceNotifier 1).tx_commit_subs = some [0] ∧
      ([0] : List WaiterId).length ≤ MAX_LISTENERS_PER_ENTITY) ∧
    (¬ bucketLen ceSubLast (ceNotifier 4097) < MAX_LISTENERS_PER_ENTITY ∧
      sameLookups (registerOf ceSubLast (ceNotifier 4097)).1
        (ceNotifier 4097) ∧
      (registerOf ceSubLast (ceNotifier 4097)).2 = []) := by
  have hreach : Reachable (ceNotifier 1) :=
    ⟨ceTrace 1, congrArg Prod.fst (ceState 1 (by omega))⟩
  have hlook : alistLookup ceHash (ceNotifier 1).tx_commit_subs = some [0] := by
    decide
  have hfull : ¬ bucketLen ceSubLast (ceNotifier 4097) <
      MAX_LISTENERS_PER_ENTITY := by
    have hm : min 4097 4096 = 4096 := by omega
    simp [bucketLen, bucketLookup, ceSubLast, ceNotifier, alistLookup, hm,
      MAX_LISTENERS_PER_ENTITY]
  exact ⟨⟨hreach, hlook,
      (claim5_bounded_buckets.1 (ceNotifier 1) hreach).1 ceHash [0] hlook⟩,
    ⟨hfull, (claim5_bounded_buckets.2 ceSubLast (ceNotifier 4097) hfull).1,
      (claim5_bounded_buckets.2 ceSubLast (ceNotifier 4097) hfull).2⟩⟩

/-- C6: In every reachable registry state none of the four maps holds an
entry with an empty waiter sequence; and after a dispatch that confirms an
entity at its level, the lookup of that (identity, level) key finds no entry
at all in the corresponding map. -/
theorem claim6_no_empty_buckets :
    (∀ st, Reachable st →
      (∀ k l, alistLookup k st.tx_commit_subs = some l → l ≠ []) ∧
      (∀ k l, alistLookup k st.prior_op_commit_subs = some l → l ≠ []) ∧
      (∀ k l, alistLookup k st.tx_verify_subs = some l → l ≠ []) ∧
      (∀ k l, alistLookup k st.prior_op_verify_subs = some l → l ≠ [])) ∧
    (∀ st op sub, Reachable st → confirms op sub →
      bucketLookup sub (handle_new_block op st).1 = none) := by
  constructor
  · intro st hreach
    obtain ⟨h₁, h₂, h₃, h₄⟩ := WF_of_Reachable hreach
    exact ⟨fun k l hl => (h₁.2 (k, l) (mem_of_alistLookup hl)).2,
      fun k l hl => (h₂.2 (k, l) (mem_of_alistLookup hl)).2,
      fun k l hl => (h₃.2 (k, l) (mem_of_alistLookup hl)).2,
      fun k l hl => (h₄.2 (k, l) (mem_of_alistLookup hl)).2⟩
  · intro st op sub hreach hc
    exact handle_new_block_drains sub op st (WF_of_Reachable hreach) hc

theorem claim6_witness :
    (Reachable (ceNotifier 1) ∧
      alistLookup ceHash (ceNotifier 1).tx_commit_subs = some [0] ∧
      ([0] : List WaiterId) ≠ []) ∧
    (confirms ceBlock ceSubLast ∧
      bucketLookup ceSubLast (handle_new_block ceBlock (ceNotifier 1)).1 =
        none) := by
  have hreach : Reachable (ceNotifier 1) :=
    ⟨ceTrace 1, congrArg Prod.fst (ceState 1 (by omega))⟩
  have hlook : alistLookup ceHash (ceNotifier 1).tx_commit_subs = some [0] := by
    decide
  have hc : confirms ceBlock ceSubLast := by decide
  exact ⟨⟨hreach, hlook,
      (claim6_no_empty_buckets.1 (ceNotifier 1) hreach).1 ceHash [0] hlook⟩,
    ⟨hc, claim6_no_empty_buckets.2 (ceNotifier 1) ceBlock ceSubLast hreach hc⟩⟩

/-- C1 (amended): No missed wakeup under the subscribe/dispatch race,
provided the waiter's bucket is not already full when the subscription is
processed. If, from the fresh notifier, a subscription for entity E at level
L is processed at some position, the first dispatch after it that confirms E
at L occurs later in the same processing order (`hmid` says no confirming
dispatch lies between), the subscription's one-shot handle `w` occurs in no
other subscription input (`hlin`), and the bucket for (E, L) holds fewer
than `MAX_LISTENERS_PER_ENTITY` waiters when the subscription is processed
(`hroom` — the amendment), then exactly one delivery event of the whole run
targets `w`: either the immediate answer from the store at subscription
time, or the delivery of that confirming dispatch — never neither, and
never more than one. -/
theorem claim1_no_missed_wakeup
    (trace pre mid post : List (ConnectionPool × BlockNotifierInput))
    (pool_i pool_j : ConnectionPool) (sub : EventSubscribe) (op : Operation)
    (w : WaiterId)
    (htrace : trace =
      pre ++ (pool_i, BlockNotifierInput.EventSubscription sub) ::
        (mid ++ (pool_j, BlockNotifierInput.NewOperationCommited op) :: post))
    (hw : waiterOf sub = w)
    (hlin : subCount w trace = 1)
    (hconf : confirms op sub)
    (hmid : ∀ p ∈ mid, ∀ op',
      p.2 = BlockNotifierInput.NewOperationCommited op' → ¬ confirms op' sub)
    (hroom : bucketLen sub (run initialNotifier pre).1 <
      MAX_LISTENERS_PER_ENTITY) :
    notifCount w (run initialNotifier trace).2 = 1 := by
  subst hw
  have hub := run_occ (waiterOf sub) trace initialNotifier
  rw [hlin, stateOcc_initial] at hub
  subst htrace
  have hsub_eq : handle_input pool_i (BlockNotifierInput.EventSubscription sub)
      (run initialNotifier pre).1 =
      handle_subscription pool_i sub (run initialNotifier pre).1 := rfl
  have hop_eq : ∀ st', handle_input pool_j
      (BlockNotifierInput.NewOperationCommited op) st' =
      handle_new_block op st' := fun _ => rfl
  rw [run_append_snd, notifCount_append, run_cons_snd, notifCount_append,
    hsub_eq, run_append_snd, notifCount_append, run_cons_snd,
    notifCount_append, hop_eq] at hub ⊢
  have hlow : 1 ≤
      notifCount (waiterOf sub)
        (handle_subscription pool_i sub (run initialNotifier pre).1).2 +
      notifCount (waiterOf sub)
        (handle_new_block op
          (run (handle_subscription pool_i sub (run initialNotifier pre).1).1
            mid).1).2 := by
    rcases handle_subscription_cases pool_i sub (run initialNotifier pre).1 with
      ⟨hkeep, hout⟩ | hreg
    · have h1 : notifCount (waiterOf sub)
          (handle_subscription pool_i sub (run initialNotifier pre).1).2 = 1 := by
        rw [notifCount, hout, List.count_singleton]
        simp
      omega
    · have hin1 : inBucket sub (waiterOf sub)
          (handle_subscription pool_i sub (run initialNotifier pre).1).1 := by
        rw [hreg]
        exact inBucket_registerOf sub (run initialNotifier pre).1 hroom
      have hin2 : inBucket sub (waiterOf sub)
          (run (handle_subscription pool_i sub (run initialNotifier pre).1).1
            mid).1 :=
        inBucket_run sub (waiterOf sub) mid _ hmid hin1
      have hD := handle_new_block_delivers sub (waiterOf sub) op _ hconf hin2
      omega
  omega

theorem claim1_witness :
    subCount 55 c1trace = 1 ∧ confirms c1op c1sub ∧
    bucketLen c1sub (run initialNotifier []).1 < MAX_LISTENERS_PER_ENTITY ∧
    notifCount 55 (run initialNotifier c1trace).2 = 1 := by
  refine ⟨by decide, by decide, by decide, ?_⟩
  exact claim1_no_missed_wakeup c1trace [] [] [] failedPool failedPool c1sub
    c1op 55 rfl rfl (by decide) (by decide) (by simp) (by decide)

/-- C1 counterexample to the claim as stated: the input sequence `ceInput`
submits 4097 subscriptions for the same hash at the `Committed` level (with
pairwise distinct waiters 0, …, 4096) and then one Commit dispatch
containing that hash. The 4097th subscription (waiter 4096) is submitted
before the dispatch, the dispatch confirms its entity at its level, the
waiter appears in exactly one subscription — yet no delivery event of the
whole run ever targets waiter 4096: the bucket was full, so the waiter was
dropped at registration and the dispatch drained only waiters 0, …, 4095.
The claim's "delivered to exactly one outcome … never neither" fails. -/
theorem claim1_counterexample :
    ceInput =
      ceTrace 4096 ++ (failedPool,
          BlockNotifierInput.EventSubscription ceSubLast) ::
        ([] ++ (failedPool,
          BlockNotifierInput.NewOperationCommited ceBlock) :: []) ∧
    waiterOf ceSubLast = 4096 ∧
    subCount 4096 ceInput = 1 ∧
    confirms ceBlock ceSubLast ∧
    notifCount 4096 (run initialNotifier ceInput).2 = 0 := by
  refine ⟨?_, rfl, ?_, by decide, ?_⟩
  · have h : ceTrace 4097 = ceTrace 4096 ++ [ceSub 4096] := by
      have h' := ceTrace_succ 4096
      rwa [show (4096 : Nat) + 1 = 4097 from rfl] at h'
    rw [ceInput, h, List.append_assoc]
    rfl
  · rw [ceInput, subCount_append, ceSubCount,
      if_pos (show (4096 : Nat) < 4097 by omega)]
    rfl
  · rw [ceRun, notifCount_map_tx, List.count_eq_zero]
    simp [List.mem_range]

end EventNotify
